import Mathlib

/-!
Verification of the medidoc-ai transcription-to-structured-note-to-CDI
pipeline.  Strings are modelled as lists of characters.  Every definition
below is a direct translation of a function in the source:

* flattening of a StructuredNote to the persisted text columns comes from
  the server action saveTranscriptionAndStructuredNote,
* un-flattening comes from parseChartInfoToStructuredNote in
  VoiceAssistantSplitView.tsx (label-anchored regexes are modelled
  operationally, matching the leftmost-match plus greedy/lazy semantics of
  the JavaScript regexes used there; the character class for whitespace is
  modelled by the ASCII whitespace characters that actually occur in the
  pipeline's data, and case-insensitive matching is ASCII case folding,
  which agrees with JavaScript on the ASCII label patterns in use),
* response normalization comes from the transcription/process API route,
* the reveal sequencer comes from animateFieldFilling,
* the diff computation comes from CdiDiffEditor,
* active-note selection comes from VoiceAssistantSplitView / the CDI pdf
  route.
-/

abbrev Str := List Char

/-- JavaScript whitespace (the subset relevant to this pipeline's data):
space, tab, newline, carriage return, vertical tab, form feed. -/
def isWsC (c : Char) : Bool :=
  c = ' ' || c = '\t' || c = '\n' || c = '\r' || c = '\x0b' || c = '\x0c'

/-- Left trim, as in JavaScript String.prototype.trim. -/
def jsTrimL (s : Str) : Str := s.dropWhile isWsC

/-- Right trim. -/
def jsTrimR (s : Str) : Str := (s.reverse.dropWhile isWsC).reverse

/-- JavaScript String.prototype.trim. -/
def jsTrim (s : Str) : Str := jsTrimR (jsTrimL s)

/-- ASCII lower-casing of one character (the `i` regex flag on the ASCII
label patterns used by the source). -/
def lowerC (c : Char) : Char :=
  if 'A' ≤ c && c ≤ 'Z' then Char.ofNat (c.toNat + 32) else c

/-- Does `pat` occur, ASCII-case-insensitively, at the very start of `s`? -/
def icStarts : Str → Str → Bool
  | [], _ => true
  | _ :: _, [] => false
  | p :: ps, c :: cs => (lowerC p == lowerC c) && icStarts ps cs

/-- Leftmost case-insensitive occurrence of `pat` in `s`; returns the text
after the match (JavaScript `s.match(re)` on a regex beginning with the
literal `pat`).  `pat` is always a non-empty literal in this file. -/
def icFind (pat : Str) : Str → Option Str
  | [] => none
  | c :: rest =>
    if icStarts pat (c :: rest) then some (List.drop pat.length (c :: rest))
    else icFind pat rest

/-- Array.prototype.join with separator `sep`. -/
def joinSep (sep : Str) : List Str → Str
  | [] => []
  | [x] => x
  | x :: y :: ys => x ++ sep ++ joinSep sep (y :: ys)

/-- Decimal digit as a character. -/
def digitC (n : Nat) : Char := Char.ofNat (48 + n)

/-- Decimal rendering with explicit structural fuel (so that the kernel
can evaluate it); the fuel is always sufficient below. -/
def natStrCore : Nat → Nat → Str
  | 0, _ => []
  | fuel + 1, n =>
    if n < 10 then [digitC n] else natStrCore fuel (n / 10) ++ [digitC (n % 10)]

/-- Decimal rendering of a natural number (JavaScript template `${n}`). -/
def natStr (n : Nat) : Str := natStrCore (n + 1) n

/-- JavaScript `x || null` on a string: empty becomes null. -/
def strOrNull (v : Str) : Option Str := if v = [] then none else some v

/-- JavaScript `x || d` where `x` is a possibly-missing / null string. -/
def jsOr (x : Option Str) (d : Str) : Str :=
  match x with
  | some s => if s = [] then d else s
  | none => d

/-! ## Data model: the StructuredNote of §3 (types.ts) -/

structure History where
  past_medical_history : Str
  surgical_history : Str
  family_history : Str
  social_history : Str
deriving DecidableEq

structure Vitals where
  height : Str
  weight : Str
  bmi : Str
  bp : Str
deriving DecidableEq

structure Diagnosis where
  diagnosis_name : Str
  treatment : Str
deriving DecidableEq

structure StructuredNote where
  chief_complaint : Str
  history_of_present_illness : Str
  history : History
  review_of_systems : Str
  physical_exam : Str
  vitals : Vitals
  diagnosis : List Diagnosis
  plan : Str
  extra_info : Str
deriving DecidableEq

/-- emptyStructuredNote from types.ts / CdiReviewModal.tsx. -/
def emptyStructuredNote : StructuredNote :=
  { chief_complaint := []
    history_of_present_illness := []
    history :=
      { past_medical_history := []
        surgical_history := []
        family_history := []
        social_history := [] }
    review_of_systems := []
    physical_exam := []
    vitals := { height := [], weight := [], bmi := [], bp := [] }
    diagnosis := [{ diagnosis_name := [], treatment := [] }]
    plan := []
    extra_info := [] }

/-- SerializedChartInfo: the nine nullable text columns of a persisted
chart record. -/
structure ChartFields where
  rawTranscription : Option Str
  chiefComplient : Option Str
  historyOfIllness : Option Str
  history : Option Str
  ros : Option Str
  physicalExam : Option Str
  vitalSigns : Option Str
  diagnosis : Option Str
  plan : Option Str
deriving DecidableEq

/-- SerializedCdiChartInfo: a CDI record extends the chart columns. -/
structure CdiChartFields extends ChartFields where
  cdiStatus : Option Str
  cdiReviewedAt : Option Str
  cdiNotes : Option Str
  assessment : Option Str
  clinicalImpression : Option Str
deriving DecidableEq

/-! ## Flattening (saveTranscriptionAndStructuredNote, actions/chart) -/

def pmhLabel : Str := ("Past Medical History").data
def shLabel : Str := ("Surgical History").data
def fhLabel : Str := ("Family History").data
def socLabel : Str := ("Social History").data

def nl2 : Str := ['\n', '\n']
def colonSp : Str := [':', ' ']

/-- The four (label, value) pairs of the history section, in source order. -/
def histPairs (h : History) : List (Str × Str) :=
  [(pmhLabel, h.past_medical_history), (shLabel, h.surgical_history),
   (fhLabel, h.family_history), (socLabel, h.social_history)]

/-- One rendered history line: `Label: value`. -/
def chunkOf (p : Str × Str) : Str := p.1 ++ colonSp ++ p.2

/-- Keep only the pairs with a truthy (non-empty) value, rendered. -/
def histChunks (ps : List (Str × Str)) : List Str :=
  ps.filterMap (fun p => if p.2 = [] then none else some (chunkOf p))

/-- historyText: labeled non-empty fields joined by a blank line. -/
def historyText (h : History) : Str :=
  joinSep nl2 (histChunks (histPairs h))

def heightLabel : Str := ("Height").data
def weightLabel : Str := ("Weight").data
def bmiLabel : Str := ("BMI").data
def bpLabel : Str := ("Blood Pressure").data

def commaSp : Str := [',', ' ']
def dashS : Str := ['-']

def vitalPairs (v : Vitals) : List (Str × Str) :=
  [(heightLabel, v.height), (weightLabel, v.weight),
   (bmiLabel, v.bmi), (bpLabel, v.bp)]

/-- Keep only the vitals whose value is non-empty and not the placeholder. -/
def vitalChunks (ps : List (Str × Str)) : List Str :=
  ps.filterMap (fun p =>
    if p.2 = [] ∨ p.2 = dashS then none else some (chunkOf p))

/-- vitalsText: `Label: value` pairs joined by a comma and space. -/
def vitalsText (v : Vitals) : Str :=
  joinSep commaSp (vitalChunks (vitalPairs v))

def treatPrefix : Str := ("\n   Treatment: ").data

/-- One rendered diagnosis entry: `n. name` plus an optional treatment
line. -/
def diagEntryText (n : Nat) (d : Diagnosis) : Str :=
  natStr n ++ ('.' :: ' ' :: d.diagnosis_name) ++
    (if d.treatment = [] then [] else treatPrefix ++ d.treatment)

/-- diagnosisText: entries with a truthy name, numbered after filtering,
joined by a blank line. -/
def diagnosisText (l : List Diagnosis) : Str :=
  joinSep nl2
    (((l.filter (fun d => d.diagnosis_name ≠ [])).enum).map
      (fun p => diagEntryText (p.1 + 1) p.2))

/-- The columns written by saveTranscriptionAndStructuredNote (each one
`text || null`). -/
def flattenChart (n : StructuredNote) (raw : Str) : ChartFields :=
  { rawTranscription := some raw
    chiefComplient := strOrNull n.chief_complaint
    historyOfIllness := strOrNull n.history_of_present_illness
    history := strOrNull (historyText n.history)
    ros := strOrNull n.review_of_systems
    physicalExam := strOrNull n.physical_exam
    vitalSigns := strOrNull (vitalsText n.vitals)
    diagnosis := strOrNull (diagnosisText n.diagnosis)
    plan := strOrNull n.plan }

/-! ## Un-flattening (parseChartInfoToStructuredNote) -/

/-- The four label anchors of the history lookahead, with their colons. -/
def histAnchors : List Str :=
  [pmhLabel ++ [':'], shLabel ++ [':'], fhLabel ++ [':'], socLabel ++ [':']]

/-- Does one of the four anchors match (case-insensitively) here? -/
def isAnchorAt (s : Str) : Bool := histAnchors.any (fun a => icStarts a s)

/-- The lazy capture `[\s\S]*?` running up to the anchor lookahead or the
end of the string. -/
def captureToAnchor : Str → Str
  | [] => []
  | c :: rest => if isAnchorAt (c :: rest) then [] else c :: captureToAnchor rest

/-- parseHistoryField: regex `Label:\s*([\s\S]*?)(?=(?:anchors|$))` with
the `i` flag, then `.trim()`; empty string when there is no match. -/
def parseHistoryField (lab : Str) (text : Str) : Str :=
  match icFind (lab ++ [':']) text with
  | none => []
  | some rest => jsTrim (captureToAnchor (rest.dropWhile isWsC))

/-- The trimmed capture of `\s*([^,]+)` (greedy star, at-least-one
non-comma character, backtracking into the whitespace when the first
non-blank character is a comma or the string ends), or `none` when the
regex cannot match at this position at all. -/
def vitalCapture (rest : Str) : Option Str :=
  let ws := rest.takeWhile isWsC
  let after := rest.dropWhile isWsC
  match after with
  | [] => if ws = [] then none else some []
  | c :: _ =>
    if c = ',' then (if ws = [] then none else some [])
    else some (jsTrimR (after.takeWhile (fun x => x ≠ ',')))

/-- Leftmost position where `Label:` matches and the rest of the regex can
also match; the engine moves on past positions whose capture fails. -/
def scanVital (pat : Str) : Str → Option Str
  | [] => none
  | c :: rest =>
    if icStarts pat (c :: rest) then
      match vitalCapture (List.drop pat.length (c :: rest)) with
      | some r => some r
      | none => scanVital pat rest
    else scanVital pat rest

/-- parseVitalField: regex `Label:\s*([^,]+)` with the `i` flag, trimmed,
defaulting to the dash placeholder. -/
def parseVitalField (lab : Str) (text : Str) : Str :=
  (scanVital (lab ++ [':']) text).getD dashS

/-- Length of a match of `\d+\.\s+` at the head of `s`, if any. -/
def numDotWs (s : Str) : Option Nat :=
  let d := s.takeWhile Char.isDigit
  if d = [] then none
  else
    match s.drop d.length with
    | '.' :: r2 =>
      let w := r2.takeWhile isWsC
      if w = [] then none else some (d.length + 1 + w.length)
    | _ => none

/-- String.prototype.split on the regex `\d+\.\s+`: pieces between
non-overlapping leftmost matches.  Structural fuel keeps the recursion
kernel-evaluable; the fuel is always at least the input length plus one,
so the fuel-exhausted branch is never taken. -/
def splitNumGo : Nat → Str → Str → List Str
  | _, [], acc => [acc.reverse]
  | 0, _ :: _, acc => [acc.reverse]
  | fuel + 1, c :: rest, acc =>
    match numDotWs (c :: rest) with
    | some m => acc.reverse :: splitNumGo fuel (List.drop m (c :: rest)) []
    | none => splitNumGo fuel rest (c :: acc)

def splitNum (s : Str) : List Str := splitNumGo (s.length + 1) s []

def treatColon : Str := ("Treatment:").data

/-- Length of a match of `\n\s*Treatment:\s*` (with the `i` flag) at the
head of `s`, if any. -/
def treatMatchLen (s : Str) : Option Nat :=
  match s with
  | '\n' :: rest =>
    let w := rest.takeWhile isWsC
    let after := rest.dropWhile isWsC
    if icStarts treatColon after then
      let after2 := after.drop treatColon.length
      some (1 + w.length + treatColon.length + (after2.takeWhile isWsC).length)
    else none
  | _ => none

/-- String.prototype.split on the regex `\n\s*Treatment:\s*` (`i` flag),
with the same structural-fuel scheme as splitNumGo. -/
def splitTreatGo : Nat → Str → Str → List Str
  | _, [], acc => [acc.reverse]
  | 0, _ :: _, acc => [acc.reverse]
  | fuel + 1, c :: rest, acc =>
    match treatMatchLen (c :: rest) with
    | some m => acc.reverse :: splitTreatGo fuel (List.drop m (c :: rest)) []
    | none => splitTreatGo fuel rest (c :: acc)

def splitTreat (s : Str) : List Str := splitTreatGo (s.length + 1) s []

/-- One split-off diagnosis entry: name before the Treatment marker, the
remaining parts joined by one space; both trimmed. -/
def parseDiagEntry (e : Str) : Diagnosis :=
  match splitTreat e with
  | [] => { diagnosis_name := [], treatment := [] }
  | nm :: ts => { diagnosis_name := jsTrim nm, treatment := jsTrim (joinSep [' '] ts) }

/-- Diagnosis entries recovered from the stored blob: split on the number
pattern, drop falsy pieces, parse each piece. -/
def parseDiagnosis (text : Str) : List Diagnosis :=
  ((splitNum text).filter (fun e => e ≠ [])).map parseDiagEntry

/-- parseChartInfoToStructuredNote from VoiceAssistantSplitView.tsx. -/
def parseChartInfoToStructuredNote (c : ChartFields) : StructuredNote :=
  let historyT := c.history.getD []
  let vitalsT := c.vitalSigns.getD []
  let diagT := c.diagnosis.getD []
  let diagnoses := parseDiagnosis diagT
  { chief_complaint := (c.chiefComplient).getD []
    history_of_present_illness := (c.historyOfIllness).getD []
    history :=
      { past_medical_history := parseHistoryField pmhLabel historyT
        surgical_history := parseHistoryField shLabel historyT
        family_history := parseHistoryField fhLabel historyT
        social_history := parseHistoryField socLabel historyT }
    review_of_systems := (c.ros).getD []
    physical_exam := (c.physicalExam).getD []
    vitals :=
      { height := parseVitalField heightLabel vitalsT
        weight := parseVitalField weightLabel vitalsT
        bmi := parseVitalField bmiLabel vitalsT
        bp := parseVitalField bpLabel vitalsT }
    diagnosis :=
      if diagnoses.length > 0 then diagnoses
      else [{ diagnosis_name := [], treatment := [] }]
    plan := (c.plan).getD []
    extra_info := [] }

/-! ## Response normalization (api/transcription/process route, Stage B) -/

structure RawHistory where
  past_medical_history : Option Str
  surgical_history : Option Str
  family_history : Option Str
  social_history : Option Str
deriving DecidableEq

structure RawVitals where
  height : Option Str
  weight : Option Str
  bmi : Option Str
  bp : Option Str
deriving DecidableEq

structure RawDiagnosisEntry where
  diagnosis_name : Option Str
  treatment : Option Str
deriving DecidableEq

/-- The completion service's `diagnosis` value: absent/null, present but
not an array, or an array of entries (Array.isArray distinguishes). -/
inductive RawDiagnosisVal where
  | missing
  | nonArray
  | arr (l : List RawDiagnosisEntry)
deriving DecidableEq

/-- A completion-service response with arbitrary subsets of keys present
(`none` is a missing or null key). -/
structure RawNote where
  chief_complaint : Option Str
  history_of_present_illness : Option Str
  history : Option RawHistory
  review_of_systems : Option Str
  physical_exam : Option Str
  vitals : Option RawVitals
  diagnosis : RawDiagnosisVal
  plan : Option Str
  extra_info : Option Str
deriving DecidableEq

/-- The route's normalizedNote: every field coerced with `|| default`. -/
def normalizeNote (r : RawNote) : StructuredNote :=
  { chief_complaint := jsOr r.chief_complaint []
    history_of_present_illness := jsOr r.history_of_present_illness []
    history :=
      { past_medical_history := jsOr (r.history.bind (fun h => h.past_medical_history)) []
        surgical_history := jsOr (r.history.bind (fun h => h.surgical_history)) []
        family_history := jsOr (r.history.bind (fun h => h.family_history)) []
        social_history := jsOr (r.history.bind (fun h => h.social_history)) [] }
    review_of_systems := jsOr r.review_of_systems []
    physical_exam := jsOr r.physical_exam []
    vitals :=
      { height := jsOr (r.vitals.bind (fun v => v.height)) dashS
        weight := jsOr (r.vitals.bind (fun v => v.weight)) dashS
        bmi := jsOr (r.vitals.bind (fun v => v.bmi)) dashS
        bp := jsOr (r.vitals.bind (fun v => v.bp)) dashS }
    diagnosis :=
      match r.diagnosis with
      | RawDiagnosisVal.arr l =>
        if l.length > 0 then
          l.map (fun d =>
            { diagnosis_name := jsOr d.diagnosis_name []
              treatment := jsOr d.treatment [] })
        else [{ diagnosis_name := [], treatment := [] }]
      | _ => [{ diagnosis_name := [], treatment := [] }]
    plan := jsOr r.plan []
    extra_info := jsOr r.extra_info [] }

/-! ## Reveal sequencer (animateFieldFilling, Stage C) -/

/-- FIELD_ORDER from VoiceAssistantSplitView.tsx. -/
def FIELD_ORDER : List Str :=
  [("chief_complaint").data,
   ("history_of_present_illness").data,
   ("history.past_medical_history").data,
   ("history.surgical_history").data,
   ("history.family_history").data,
   ("history.social_history").data,
   ("review_of_systems").data,
   ("physical_exam").data,
   ("vitals").data,
   ("diagnosis").data,
   ("plan").data,
   ("extra_info").data]

/-- One step of the sequencer's if-chain: copy the named field(s) from the
extracted note into the working note. -/
def revealStep (cur d : StructuredNote) (field : Str) : StructuredNote :=
  if field = ("chief_complaint").data then
    { cur with chief_complaint := d.chief_complaint }
  else if field = ("history_of_present_illness").data then
    { cur with history_of_present_illness := d.history_of_present_illness }
  else if field = ("history.past_medical_history").data then
    { cur with history := { cur.history with past_medical_history := d.history.past_medical_history } }
  else if field = ("history.surgical_history").data then
    { cur with history := { cur.history with surgical_history := d.history.surgical_history } }
  else if field = ("history.family_history").data then
    { cur with history := { cur.history with family_history := d.history.family_history } }
  else if field = ("history.social_history").data then
    { cur with history := { cur.history with social_history := d.history.social_history } }
  else if field = ("review_of_systems").data then
    { cur with review_of_systems := d.review_of_systems }
  else if field = ("physical_exam").data then
    { cur with physical_exam := d.physical_exam }
  else if field = ("vitals").data then
    { cur with vitals := d.vitals }
  else if field = ("diagnosis").data then
    { cur with diagnosis := d.diagnosis }
  else if field = ("plan").data then
    { cur with plan := d.plan }
  else if field = ("extra_info").data then
    { cur with extra_info := if d.extra_info = [] then [] else d.extra_info }
  else cur

/-- The working note after the first `k` iterations of the reveal loop,
started from the all-empty note; iteration `i` applies the step for
`FIELD_ORDER[i]` (an out-of-range index changes nothing, as in the
source's fall-through). -/
def revealState (d : StructuredNote) : Nat → StructuredNote
  | 0 => emptyStructuredNote
  | k + 1 => revealStep (revealState d k) d (FIELD_ORDER.getD k [])

/-- The field marked animating at loop index `i` (`FIELD_ORDER[i]`). -/
def animatingSeq : List Str :=
  (List.range FIELD_ORDER.length).map (fun i => FIELD_ORDER.getD i [])

/-- Math.round(num / den) for non-negative arguments.  The progress values
100*(i+1)/12 are never exact halves, so rounding the rational quotient
agrees with rounding the double-precision quotient the source computes. -/
def jsRoundDiv (num den : Nat) : Nat := (2 * num + den) / (2 * den)

/-- setFillingProgress value at loop index `i`:
Math.round(((i + 1) / FIELD_ORDER.length) * 100). -/
def fillingProgressAt (i : Nat) : Nat :=
  jsRoundDiv ((i + 1) * 100) FIELD_ORDER.length

/-- All twelve reported progress values, in order. -/
def fillingProgressSeq : List Nat :=
  (List.range FIELD_ORDER.length).map fillingProgressAt

/-! ## Diff engine (CdiDiffEditor, Stage D) -/

/-- A JavaScript field value: undefined, null, or a string. -/
inductive JStr where
  | undef
  | nullv
  | str (s : Str)
deriving DecidableEq

/-- JavaScript truthiness of such a value. -/
def truthy : JStr → Bool
  | JStr.str s => s ≠ []
  | _ => false

/-- JavaScript `x || ''`. -/
def jsStrOrEmpty : JStr → Str
  | JStr.str s => s
  | _ => []

/-- The ten shared chart fields, in FIELD_CONFIG order. -/
inductive CdiKey where
  | chiefComplient
  | historyOfIllness
  | history
  | ros
  | physicalExam
  | vitalSigns
  | diagnosis
  | plan
  | assessment
  | clinicalImpression
deriving DecidableEq

def FIELD_CONFIG : List CdiKey :=
  [CdiKey.chiefComplient, CdiKey.historyOfIllness, CdiKey.history,
   CdiKey.ros, CdiKey.physicalExam, CdiKey.vitalSigns, CdiKey.diagnosis,
   CdiKey.plan, CdiKey.assessment, CdiKey.clinicalImpression]

/-- fieldsWithContent: keys where either side is truthy. -/
def fieldsWithContent (o c : CdiKey → JStr) : List CdiKey :=
  FIELD_CONFIG.filter (fun k => truthy (o k) || truthy (c k))

/-- changedFields: the shown keys whose raw values differ (strict `!==`). -/
def changedKeys (o c : CdiKey → JStr) : List CdiKey :=
  (fieldsWithContent o c).filter (fun k => decide (o k ≠ c k))

/-! ## Active-note selection (VoiceAssistantSplitView, cdi/pdf route) -/

/-- Truthiness of a nullable string column. -/
def optTruthy (o : Option Str) : Bool :=
  match o with
  | some s => s ≠ []
  | none => false

/-- activeChartInfo: the CDI record wholesale when present, else the base
chart record. -/
def activeChartInfo (base : Option ChartFields) (cdi : Option CdiChartFields) :
    Option ChartFields :=
  match cdi with
  | some c => some c.toChartFields
  | none => base

/-- The structured note a consumer of the page initially sees: the active
record parsed, when it has a truthy transcription. -/
def initialNoteOf (base : Option ChartFields) (cdi : Option CdiChartFields) :
    StructuredNote :=
  match activeChartInfo base cdi with
  | some a =>
    if optTruthy a.rawTranscription then parseChartInfoToStructuredNote a
    else emptyStructuredNote
  | none => emptyStructuredNote

/-- The clinical fields of the CDI pdf report (GET /api/cdi/pdf). -/
structure CdiReportFields where
  chiefComplaint : Option Str
  historyOfPresentIllness : Option Str
  history : Option Str
  reviewOfSystems : Option Str
  physicalExam : Option Str
  vitalSigns : Option Str
  diagnosis : Option Str
  plan : Option Str
deriving DecidableEq

/-- The pdf route reads only the CDI record and 404s without one. -/
def cdiPdfReport (cdi : Option CdiChartFields) : Option CdiReportFields :=
  cdi.map (fun c =>
    { chiefComplaint := c.chiefComplient
      historyOfPresentIllness := c.historyOfIllness
      history := c.history
      reviewOfSystems := c.ros
      physicalExam := c.physicalExam
      vitalSigns := c.vitalSigns
      diagnosis := c.diagnosis
      plan := c.plan })

/-! ## Stage B control flow (handleProcessAndSave) -/

/-- Outcome of the extraction fetch, as observed by the client. -/
inductive ExtractOutcome where
  | netError
  | httpError
  | jsonError
  | payload (success : Bool) (d : Option StructuredNote)
deriving DecidableEq

inductive ProcessEffect where
  | reveal (n : StructuredNote)
  | save (transcript : Str) (n : StructuredNote)
deriving DecidableEq

/-- The ordered externally-visible effects of handleProcessAndSave: every
failure branch throws before the reveal sequencer and before the
persistence call; only a successful payload with data reaches them. -/
def handleProcessAndSave (transcript : Str) (f : ExtractOutcome) :
    List ProcessEffect :=
  if jsTrim transcript = [] then []
  else
    match f with
    | ExtractOutcome.payload true (some d) =>
      [ProcessEffect.reveal d, ProcessEffect.save transcript d]
    | _ => []

/-! ## Specification-side definitions (for refinement-style claims) -/

/-- Modelled from the spec's words in §4.2: after `k` of the twelve steps,
every already-revealed field holds the extracted note's final value and
every not-yet-revealed field holds its empty default. -/
def revealSpec (d : StructuredNote) (k : Nat) : StructuredNote :=
  { chief_complaint := if 0 < k then d.chief_complaint else []
    history_of_present_illness := if 1 < k then d.history_of_present_illness else []
    history :=
      { past_medical_history := if 2 < k then d.history.past_medical_history else []
        surgical_history := if 3 < k then d.history.surgical_history else []
        family_history := if 4 < k then d.history.family_history else []
        social_history := if 5 < k then d.history.social_history else [] }
    review_of_systems := if 6 < k then d.review_of_systems else []
    physical_exam := if 7 < k then d.physical_exam else []
    vitals :=
      if 8 < k then d.vitals
      else { height := [], weight := [], bmi := [], bp := [] }
    diagnosis :=
      if 9 < k then d.diagnosis
      else [{ diagnosis_name := [], treatment := [] }]
    plan := if 10 < k then d.plan else []
    extra_info := if 11 < k then d.extra_info else [] }

/-- Modelled from the spec's words in §4.3: emit each non-empty-named
entry as a numbered line with an optional treatment line, numbering the
emitted entries consecutively and dropping empty-named entries. -/
def specDiagEntries : Nat → List Diagnosis → List Str
  | _, [] => []
  | n, d :: ds =>
    if d.diagnosis_name = [] then specDiagEntries n ds
    else diagEntryText n d :: specDiagEntries (n + 1) ds

/-- Spec-following diagnosis flattening: numbered entries joined by a
blank line. -/
def diagnosisTextSpec (l : List Diagnosis) : Str :=
  joinSep nl2 (specDiagEntries 1 l)

/-! ## Hypothesis predicates for the flatten/unflatten round trip -/

/-- The four vitals label anchors with their colons. -/
def vitalAnchors : List Str :=
  [heightLabel ++ [':'], weightLabel ++ [':'], bmiLabel ++ [':'], bpLabel ++ [':']]

/-- No match of the numbered-list delimiter `\d+\.\s+` anywhere in `v`. -/
def noDelimLocal : Str → Bool
  | [] => true
  | c :: r => (numDotWs (c :: r)).isNone && noDelimLocal r

/-- Does `v` end with at least one digit immediately followed by a dot? -/
def endsDigitsDot (v : Str) : Bool :=
  match v.reverse with
  | '.' :: d :: _ => d.isDigit
  | _ => false

/-- A history value safe for the round trip: whitespace-trimmed and free
of the four label anchors. -/
def histValOK (v : Str) : Prop :=
  jsTrim v = v ∧ ∀ a ∈ histAnchors, icFind a v = none

def historyOK (h : History) : Prop :=
  histValOK h.past_medical_history ∧ histValOK h.surgical_history ∧
    histValOK h.family_history ∧ histValOK h.social_history

/-- A vitals value safe for the round trip: trimmed, comma-free, free of
the four vitals labels. -/
def vitalValOK (v : Str) : Prop :=
  jsTrim v = v ∧ ',' ∉ v ∧ ∀ a ∈ vitalAnchors, icFind a v = none

def vitalsOK (v : Vitals) : Prop :=
  vitalValOK v.height ∧ vitalValOK v.weight ∧ vitalValOK v.bmi ∧ vitalValOK v.bp

/-- A diagnosis name or treatment safe for the round trip: trimmed, free
of the Treatment label, free of the numbered-list delimiter, and not
ending in a digits-then-dot fragment (which would fuse with the following
blank line into a delimiter). -/
def diagValOK (v : Str) : Prop :=
  jsTrim v = v ∧ icFind treatColon v = none ∧ noDelimLocal v = true ∧
    endsDigitsDot v = false

def diagOK (l : List Diagnosis) : Prop :=
  ∀ d ∈ l, diagValOK d.diagnosis_name ∧ diagValOK d.treatment

/-- Every field value of the note is safe for the round trip. -/
def noteOK (n : StructuredNote) : Prop :=
  historyOK n.history ∧ vitalsOK n.vitals ∧ diagOK n.diagnosis

/-- The no-collision condition exactly as the claims state it: no embedded
label strings, no commas, no numbered-list delimiter match. -/
def claimSafeVal (v : Str) : Prop :=
  (∀ a ∈ histAnchors, icFind a v = none) ∧
    (∀ a ∈ vitalAnchors, icFind a v = none) ∧
    icFind treatColon v = none ∧ ',' ∉ v ∧ noDelimLocal v = true

/-! ## Auxiliary notions used by the round-trip proofs -/

/-- `cfree pat C` says the pattern cannot begin at any position of `C`,
whatever text follows: at every suffix of `C` the pattern's corresponding
prefix already fails to match.  For the concrete labels this is decided by
computation. -/
def cfree (pat : Str) : Str → Bool
  | [] => true
  | c :: rest => !(icStarts (pat.take (c :: rest).length) (c :: rest)) && cfree pat rest

/-- Rendered chunks each followed by the separator, in front of a
remainder. -/
def joinPre (sep : Str) : List Str → Str → Str
  | [], r => r
  | c :: cs, r => c ++ sep ++ joinPre sep cs r

/-- The text of one flattened diagnosis entry after its number prefix. -/
def bodyOf (d : Diagnosis) : Str :=
  d.diagnosis_name ++ (if d.treatment = [] then [] else treatPrefix ++ d.treatment)

/-- The pieces the number-split produces after the leading empty piece:
every entry body keeps the blank-line separator that preceded the next
number. -/
def bodyPieces : List Diagnosis → List Str
  | [] => []
  | [d] => [bodyOf d]
  | d :: d' :: ds => (bodyOf d ++ nl2) :: bodyPieces (d' :: ds)

/-- The flattened entries of a list all of whose names are kept, numbered
from `n`. -/
def renderFrom (n : Nat) : List Diagnosis → List Str
  | [] => []
  | d :: ds => diagEntryText n d :: renderFrom (n + 1) ds

/-- No match of the number delimiter starts at any position of `C`, even
continuing into the remainder `R`. -/
def noDelimSeg (c r : Str) : Prop :=
  ∀ p, p < c.length → numDotWs (List.drop p c ++ r) = none

/-- No match of the Treatment delimiter starts at any position of `C`,
even continuing into the remainder `R`. -/
def treatSeg (c r : Str) : Prop :=
  ∀ p, p < c.length → treatMatchLen (List.drop p c ++ r) = none

instance (v : Str) : Decidable (histValOK v) := by
  unfold histValOK
  infer_instance

instance (h : History) : Decidable (historyOK h) := by
  unfold historyOK
  infer_instance

instance (v : Str) : Decidable (vitalValOK v) := by
  unfold vitalValOK
  infer_instance

instance (v : Vitals) : Decidable (vitalsOK v) := by
  unfold vitalsOK
  infer_instance

instance (v : Str) : Decidable (diagValOK v) := by
  unfold diagValOK
  infer_instance

instance (l : List Diagnosis) : Decidable (diagOK l) := by
  unfold diagOK diagValOK
  infer_instance

instance (n : StructuredNote) : Decidable (noteOK n) := by
  unfold noteOK historyOK histValOK vitalsOK vitalValOK diagOK diagValOK
  infer_instance

instance (v : Str) : Decidable (claimSafeVal v) := by
  unfold claimSafeVal
  infer_instance

/-! ## Concrete records used by witnesses and counterexamples -/

/-- A clean note (trimmed, collision-free values) for round-trip
witnesses. -/
def roundNote : StructuredNote :=
  { chief_complaint := ("Headache").data
    history_of_present_illness := ("3 days of throbbing pain").data
    history :=
      { past_medical_history := ("Type 2 diabetes").data
        surgical_history := []
        family_history := ("Heart disease").data
        social_history := ("Smoker").data }
    review_of_systems := ("Negative except as noted").data
    physical_exam := ("Alert and oriented").data
    vitals :=
      { height := ("170 cm").data
        weight := dashS
        bmi := []
        bp := ("120/80").data }
    diagnosis :=
      [{ diagnosis_name := ("Hypertension").data, treatment := ("Lisinopril 10mg").data },
       { diagnosis_name := [], treatment := [] },
       { diagnosis_name := ("Migraine").data, treatment := [] }]
    plan := ("Follow up in 2 weeks").data
    extra_info := [] }

/-- A note whose only flaw is a trailing space inside one history value:
within the claim's stated no-collision hypotheses, yet not byte-stable. -/
def c3CexNote : StructuredNote :=
  { emptyStructuredNote with
    history :=
      { past_medical_history := ("Asthma ").data
        surgical_history := []
        family_history := []
        social_history := [] } }

/-- A note with non-empty extra_info: the column set has nowhere to store
it, so the round trip erases it. -/
def c4CexNote : StructuredNote :=
  { emptyStructuredNote with extra_info := ("Patient mentioned travel").data }

/-- Base chart record with a chief complaint, for the C1 counterexample. -/
def c1Base : ChartFields :=
  { rawTranscription := some (("visit dictation").data)
    chiefComplient := some (("Chest pain").data)
    historyOfIllness := none
    history := none
    ros := none
    physicalExam := none
    vitalSigns := none
    diagnosis := none
    plan := none }

/-- CDI record for the same appointment whose chief complaint is null. -/
def c1Cdi : CdiChartFields :=
  { rawTranscription := some (("visit dictation").data)
    chiefComplient := none
    historyOfIllness := none
    history := none
    ros := none
    physicalExam := none
    vitalSigns := none
    diagnosis := none
    plan := none
    cdiStatus := some (("reviewed").data)
    cdiReviewedAt := none
    cdiNotes := none
    assessment := none
    clinicalImpression := none }

/-- A completion-service response with every key missing. -/
def c5RawEmpty : RawNote :=
  { chief_complaint := none
    history_of_present_illness := none
    history := none
    review_of_systems := none
    physical_exam := none
    vitals := none
    diagnosis := RawDiagnosisVal.missing
    plan := none
    extra_info := none }

/-- Original-side field map for the diff witness (Scenario C shape). -/
def c8Orig : CdiKey → JStr := fun k =>
  match k with
  | CdiKey.plan => JStr.str (("Follow up in 2 weeks").data)
  | CdiKey.assessment => JStr.nullv
  | _ => JStr.undef

/-- Improved-side field map for the diff witness. -/
def c8Cdi : CdiKey → JStr := fun k =>
  match k with
  | CdiKey.plan => JStr.str (("Follow up in 2 weeks; monitor blood pressure weekly").data)
  | _ => JStr.undef

/-- A chart record whose stored blobs contain no recognizable labels or
numbered entries at all. -/
def c10Chart : ChartFields :=
  { rawTranscription := some (("free text").data)
    chiefComplient := none
    historyOfIllness := none
    history := some (("completely unstructured text").data)
    ros := none
    physicalExam := none
    vitalSigns := some (("no labels in here").data)
    diagnosis := some (("3. ").data)
    plan := none }

/-! ## Theorems -/

/-- Claim C1, counterexample: with a base record whose chief complaint is
"Chest pain" and a CDI record whose chief complaint is null, the consumer
of the active note sees an empty chief complaint, not the base value, and
the pdf report carries the null — so null CDI fields do not fall back to
base chart values. -/
theorem claim1_counterexample :
    c1Base.chiefComplient = some (("Chest pain").data) ∧
    c1Cdi.chiefComplient = none ∧
    (initialNoteOf (some c1Base) (some c1Cdi)).chief_complaint = [] ∧
    (initialNoteOf (some c1Base) none).chief_complaint = ("Chest pain").data ∧
    cdiPdfReport (some c1Cdi) =
      some { chiefComplaint := none, historyOfPresentIllness := none,
             history := none, reviewOfSystems := none, physicalExam := none,
             vitalSigns := none, diagnosis := none, plan := none } := by
  decide

/-- Claim C1 (amended): when a CDI record exists it supersedes the base
chart record wholesale — every consumer (the split view's active note and
the pdf report) reads all fields from the CDI record, including its null
fields; only when no CDI record exists is the base record used. -/
theorem claim1_cdi_record_precedence (base : Option ChartFields) (c : CdiChartFields) :
    activeChartInfo base (some c) = some c.toChartFields ∧
    activeChartInfo base none = base ∧
    (optTruthy c.rawTranscription = true →
      initialNoteOf base (some c) = parseChartInfoToStructuredNote c.toChartFields) ∧
    cdiPdfReport (some c) =
      some { chiefComplaint := c.chiefComplient,
             historyOfPresentIllness := c.historyOfIllness,
             history := c.history, reviewOfSystems := c.ros,
             physicalExam := c.physicalExam, vitalSigns := c.vitalSigns,
             diagnosis := c.diagnosis, plan := c.plan } ∧
    cdiPdfReport none = none := by
  refine ⟨rfl, rfl, ?_, rfl, rfl⟩
  intro h
  simp [initialNoteOf, activeChartInfo, h]

/-- Witness for C1: the amended statement applied at the concrete pair of
records. -/
theorem claim1_witness :
    optTruthy c1Cdi.rawTranscription = true ∧
    initialNoteOf (some c1Base) (some c1Cdi) =
      parseChartInfoToStructuredNote c1Cdi.toChartFields :=
  ⟨by decide, (claim1_cdi_record_precedence (some c1Base) c1Cdi).2.2.1 (by decide)⟩

/-- Claim C2, counterexample: the first reported progress value is
Math.round(100/12) = 8, not the 9 the claim lists. -/
theorem claim2_counterexample :
    fillingProgressAt 0 = 8 ∧
    fillingProgressSeq ≠ [9, 17, 25, 33, 42, 50, 58, 67, 75, 83, 92, 100] := by
  decide

/-- Claim C2 (amended): the reveal sequencer marks fields in exactly the
fixed 12-step order, and the reported progress values
round(100 * completed_steps / 12) are [8,17,25,33,42,50,58,67,75,83,92,100]. -/
theorem claim2_reveal_order_and_progress :
    animatingSeq = FIELD_ORDER ∧
    FIELD_ORDER =
      [("chief_complaint").data,
       ("history_of_present_illness").data,
       ("history.past_medical_history").data,
       ("history.surgical_history").data,
       ("history.family_history").data,
       ("history.social_history").data,
       ("review_of_systems").data,
       ("physical_exam").data,
       ("vitals").data,
       ("diagnosis").data,
       ("plan").data,
       ("extra_info").data] ∧
    fillingProgressSeq = [8, 17, 25, 33, 42, 50, 58, 67, 75, 83, 92, 100] := by
  decide

/-- Numbering helper: mapping the source's enumFrom-based rendering over a
filtered list agrees with the spec's fused recursion. -/
theorem specDiagEntries_eq (l : List Diagnosis) :
    ∀ n : Nat,
      ((l.filter (fun d => d.diagnosis_name ≠ [])).enumFrom n).map
          (fun p => diagEntryText (p.1 + 1) p.2) =
        specDiagEntries (n + 1) l := by
  induction l with
  | nil => intro n; rfl
  | cons d ds ih =>
    intro n
    simp only [ne_eq, decide_not] at ih ⊢
    by_cases hd : d.diagnosis_name = []
    · simp [List.filter_cons, hd, specDiagEntries, ih n]
    · simp [List.filter_cons, hd, List.enumFrom, specDiagEntries, ih (n + 1)]

/-- Claim C7: the diagnosis flattening emits, for each entry with a
non-empty name, the numbered line with an optional treatment line, joins
entries with a blank line and drops empty-named entries (equivalence with
the spec-following rendering), and the concrete scenario instance holds. -/
theorem claim7_diagnosis_flatten :
    (∀ l : List Diagnosis, diagnosisText l = diagnosisTextSpec l) ∧
    diagnosisText
        [{ diagnosis_name := ("Hypertension").data, treatment := ("Lisinopril 10mg").data },
         { diagnosis_name := [], treatment := [] }] =
      ("1. Hypertension\n   Treatment: Lisinopril 10mg").data := by
  constructor
  · intro l
    have he : List.enum (l.filter (fun d => d.diagnosis_name ≠ [])) =
        List.enumFrom 0 (l.filter (fun d => d.diagnosis_name ≠ [])) := rfl
    unfold diagnosisText diagnosisTextSpec
    rw [he, specDiagEntries_eq l 0]
  · decide

/-- Claim C10: the un-flattening parser is total on arbitrary stored
blobs and re-establishes the schema invariant: the diagnosis list is
never empty (the placeholder appears when nothing parses), any vitals
sub-field whose label is not found defaults to the dash, any history
sub-field whose label is not found is empty, and extra_info is empty. -/
theorem claim10_unflatten_total (c : ChartFields) :
    (parseChartInfoToStructuredNote c).diagnosis ≠ [] ∧
    (parseDiagnosis (c.diagnosis.getD []) = [] →
      (parseChartInfoToStructuredNote c).diagnosis =
        [{ diagnosis_name := [], treatment := [] }]) ∧
    (scanVital (heightLabel ++ [':']) (c.vitalSigns.getD []) = none →
      (parseChartInfoToStructuredNote c).vitals.height = dashS) ∧
    (scanVital (weightLabel ++ [':']) (c.vitalSigns.getD []) = none →
      (parseChartInfoToStructuredNote c).vitals.weight = dashS) ∧
    (scanVital (bmiLabel ++ [':']) (c.vitalSigns.getD []) = none →
      (parseChartInfoToStructuredNote c).vitals.bmi = dashS) ∧
    (scanVital (bpLabel ++ [':']) (c.vitalSigns.getD []) = none →
      (parseChartInfoToStructuredNote c).vitals.bp = dashS) ∧
    (icFind (pmhLabel ++ [':']) (c.history.getD []) = none →
      (parseChartInfoToStructuredNote c).history.past_medical_history = []) ∧
    (parseChartInfoToStructuredNote c).extra_info = [] := by
  refine ⟨?_, ?_, ?_, ?_, ?_, ?_, ?_, rfl⟩
  · show (if (parseDiagnosis (c.diagnosis.getD [])).length > 0 then _ else _) ≠ []
    split
    · next hlen =>
      intro hnil
      rw [hnil] at hlen
      simp at hlen
    · simp
  · intro h
    show (if (parseDiagnosis (c.diagnosis.getD [])).length > 0 then _ else _) = _
    rw [h]
    simp
  · intro h
    show parseVitalField heightLabel (c.vitalSigns.getD []) = dashS
    unfold parseVitalField
    rw [h]
    rfl
  · intro h
    show parseVitalField weightLabel (c.vitalSigns.getD []) = dashS
    unfold parseVitalField
    rw [h]
    rfl
  · intro h
    show parseVitalField bmiLabel (c.vitalSigns.getD []) = dashS
    unfold parseVitalField
    rw [h]
    rfl
  · intro h
    show parseVitalField bpLabel (c.vitalSigns.getD []) = dashS
    unfold parseVitalField
    rw [h]
    rfl
  · intro h
    show parseHistoryField pmhLabel (c.history.getD []) = []
    unfold parseHistoryField
    rw [h]

/-- Witness for C10: the theorem applied to a record whose blobs contain
no labels and no numbered entries. -/
theorem claim10_witness :
    parseDiagnosis (c10Chart.diagnosis.getD []) = [] ∧
    (parseChartInfoToStructuredNote c10Chart).diagnosis =
      [{ diagnosis_name := [], treatment := [] }] ∧
    (parseChartInfoToStructuredNote c10Chart).vitals.height = dashS :=
  ⟨by decide, (claim10_unflatten_total c10Chart).2.1 (by decide),
    (claim10_unflatten_total c10Chart).2.2.1 (by decide)⟩

/-- Claim C5: for any completion-service response with arbitrary missing
keys, the normalizer yields a StructuredNote (so every leaf is a present
string by type) in which missing keys become empty strings, vitals
sub-fields default to the dash, and diagnosis always has at least one
entry — the single empty placeholder whenever the response's diagnosis is
missing, not an array, or empty. -/
theorem claim5_normalizer_defaults (r : RawNote) :
    1 ≤ (normalizeNote r).diagnosis.length ∧
    ((r.diagnosis = RawDiagnosisVal.missing ∨ r.diagnosis = RawDiagnosisVal.nonArray ∨
        r.diagnosis = RawDiagnosisVal.arr []) →
      (normalizeNote r).diagnosis = [{ diagnosis_name := [], treatment := [] }]) ∧
    (r.chief_complaint = none → (normalizeNote r).chief_complaint = []) ∧
    (r.extra_info = none → (normalizeNote r).extra_info = []) ∧
    (r.history = none →
      (normalizeNote r).history =
        { past_medical_history := [], surgical_history := [],
          family_history := [], social_history := [] }) ∧
    (r.vitals = none →
      (normalizeNote r).vitals =
        { height := dashS, weight := dashS, bmi := dashS, bp := dashS }) ∧
    (∀ v0, r.vitals = some v0 → v0.height = none ∨ v0.height = some [] →
      (normalizeNote r).vitals.height = dashS) ∧
    (∀ l, r.diagnosis = RawDiagnosisVal.arr l → l ≠ [] →
      (normalizeNote r).diagnosis =
        l.map (fun d =>
          { diagnosis_name := jsOr d.diagnosis_name [],
            treatment := jsOr d.treatment [] })) := by
  obtain ⟨cc, hoi, hh, ros, pe, vv, dg, pl, ei⟩ := r
  refine ⟨?_, ?_, ?_, ?_, ?_, ?_, ?_, ?_⟩
  · show 1 ≤ (normalizeNote _).diagnosis.length
    simp only [normalizeNote]
    cases dg with
    | arr l =>
      cases l with
      | nil => simp
      | cons a as => simp
    | missing => simp
    | nonArray => simp
  · intro hcase
    simp only [normalizeNote]
    rcases hcase with h | h | h <;> simp_all
  · intro h
    simp_all [normalizeNote, jsOr]
  · intro h
    simp_all [normalizeNote, jsOr]
  · intro h
    simp_all [normalizeNote, jsOr]
  · intro h
    simp_all [normalizeNote, jsOr]
  · intro v0 hv hcase
    subst hv
    rcases hcase with h | h <;> simp_all [normalizeNote, jsOr]
  · intro l hl hne
    subst hl
    simp only [normalizeNote]
    rw [if_pos (by simpa using List.length_pos.mpr hne)]

/-- Witness for C5: the theorem applied to the all-missing response. -/
theorem claim5_witness :
    (normalizeNote c5RawEmpty).diagnosis = [{ diagnosis_name := [], treatment := [] }] ∧
    (normalizeNote c5RawEmpty).vitals =
      { height := dashS, weight := dashS, bmi := dashS, bp := dashS } ∧
    (normalizeNote c5RawEmpty).chief_complaint = [] :=
  ⟨(claim5_normalizer_defaults c5RawEmpty).2.1 (Or.inl rfl),
    (claim5_normalizer_defaults c5RawEmpty).2.2.2.2.2.1 rfl,
    (claim5_normalizer_defaults c5RawEmpty).2.2.1 rfl⟩

/-- Claim C6: at every intermediate point of the reveal sequence started
from the all-empty note, the working note is the fully-typed
StructuredNote whose already-run steps hold exactly the extracted note's
final values and whose pending steps hold their empty defaults; since the
closed form at step k agrees with the closed form at every later step on
all revealed fields, no later step mutates a revealed field. -/
theorem claim6_reveal_invariant (d : StructuredNote) (k : Nat) (hk : k ≤ 12) :
    revealState d k = revealSpec d k := by
  induction k with
  | zero => rfl
  | succ n ih =>
    have hstep : revealState d (n + 1) =
        revealStep (revealState d n) d (FIELD_ORDER.getD n []) := rfl
    rw [hstep, ih (by omega)]
    have hn : n ≤ 11 := by omega
    interval_cases n
    · rfl
    · rfl
    · rfl
    · rfl
    · rfl
    · rfl
    · rfl
    · rfl
    · rfl
    · rfl
    · rfl
    · have base : revealStep (revealSpec d 11) d (FIELD_ORDER.getD 11 []) =
          { revealSpec d 12 with
            extra_info := if d.extra_info = [] then [] else d.extra_info } := rfl
      rw [base]
      by_cases hx : d.extra_info = []
      · simp [revealSpec, hx]
      · simp [revealSpec, hx]

/-- Witness for C6: the invariant applied to a concrete note at step 7. -/
theorem claim6_witness :
    7 ≤ 12 ∧ revealState roundNote 7 = revealSpec roundNote 7 :=
  ⟨by omega, claim6_reveal_invariant roundNote 7 (by omega)⟩

/-- Truthiness of a JavaScript value versus its defaulted string. -/
theorem truthy_iff_ne_empty (a : JStr) : truthy a = true ↔ jsStrOrEmpty a ≠ [] := by
  cases a <;> simp [truthy, jsStrOrEmpty]

/-- On values at least one of which is truthy, strict JavaScript
inequality agrees with inequality of the defaulted strings. -/
theorem jstr_strict_ne_iff (a b : JStr) (hab : (truthy a || truthy b) = true) :
    a ≠ b ↔ jsStrOrEmpty a ≠ jsStrOrEmpty b := by
  cases a <;> cases b <;> simp_all [truthy, jsStrOrEmpty]

/-- Claim C8: over the ten shared fields, a shown field is counted as
changed exactly when the two values differ as plain (empty-defaulted)
strings; swapping the two sides yields the same changed set; and a field
is shown exactly when at least one side is non-empty. -/
theorem claim8_diff_symmetry (o c : CdiKey → JStr) :
    (∀ k ∈ fieldsWithContent o c,
      (k ∈ changedKeys o c ↔ jsStrOrEmpty (o k) ≠ jsStrOrEmpty (c k))) ∧
    changedKeys o c = changedKeys c o ∧
    (∀ k, k ∈ fieldsWithContent o c ↔
      k ∈ FIELD_CONFIG ∧ (jsStrOrEmpty (o k) ≠ [] ∨ jsStrOrEmpty (c k) ≠ [])) := by
  refine ⟨?_, ?_, ?_⟩
  · intro k hk
    have hp : (truthy (o k) || truthy (c k)) = true := by
      have := List.mem_filter.mp hk
      exact this.2
    constructor
    · intro hmem
      have := (List.mem_filter.mp hmem).2
      have hne : o k ≠ c k := by simpa using this
      exact (jstr_strict_ne_iff (o k) (c k) hp).mp hne
    · intro hne
      refine List.mem_filter.mpr ⟨hk, ?_⟩
      simpa using (jstr_strict_ne_iff (o k) (c k) hp).mpr hne
  · unfold changedKeys fieldsWithContent
    rw [List.filter_filter, List.filter_filter]
    apply List.filter_congr
    intro k _
    rw [Bool.or_comm]
    congr 1
    simp [ne_comm]
  · intro k
    unfold fieldsWithContent
    rw [List.mem_filter]
    constructor
    · rintro ⟨h1, h2⟩
      rcases Bool.or_eq_true_iff.mp h2 with h | h
      · exact ⟨h1, Or.inl ((truthy_iff_ne_empty _).mp h)⟩
      · exact ⟨h1, Or.inr ((truthy_iff_ne_empty _).mp h)⟩
    · rintro ⟨h1, h2⟩
      refine ⟨h1, Bool.or_eq_true_iff.mpr ?_⟩
      rcases h2 with h | h
      · exact Or.inl ((truthy_iff_ne_empty _).mpr h)
      · exact Or.inr ((truthy_iff_ne_empty _).mpr h)

/-- Witness for C8: the diff equivalence applied to the Scenario C maps on
the plan field. -/
theorem claim8_witness :
    CdiKey.plan ∈ fieldsWithContent c8Orig c8Cdi ∧
    (CdiKey.plan ∈ changedKeys c8Orig c8Cdi ↔
      jsStrOrEmpty (c8Orig CdiKey.plan) ≠ jsStrOrEmpty (c8Cdi CdiKey.plan)) :=
  ⟨by decide, (claim8_diff_symmetry c8Orig c8Cdi).1 CdiKey.plan (by decide)⟩

/-- Claim C9: whenever the Stage B extraction fetch fails (network error,
non-2xx, unparseable body, unsuccessful result, or missing data), the
handler produces no effects — the reveal sequencer never starts and no
save is issued; conversely any save effect can only arise from a
successful payload, and then the reveal strictly precedes it. -/
theorem claim9_failure_aborts (t : Str) (f : ExtractOutcome) :
    ((∀ d, f ≠ ExtractOutcome.payload true (some d)) →
      handleProcessAndSave t f = []) ∧
    (∀ n, ProcessEffect.save t n ∈ handleProcessAndSave t f →
      f = ExtractOutcome.payload true (some n) ∧
      handleProcessAndSave t f =
        [ProcessEffect.reveal n, ProcessEffect.save t n]) := by
  constructor
  · intro hf
    unfold handleProcessAndSave
    split
    · rfl
    · cases f with
      | netError => rfl
      | httpError => rfl
      | jsonError => rfl
      | payload s d =>
        cases s with
        | false => rfl
        | true =>
          cases d with
          | none => rfl
          | some d0 => exact absurd rfl (hf d0)
  · intro n hn
    unfold handleProcessAndSave at hn ⊢
    split at hn
    · simp at hn
    · cases f with
      | netError => simp at hn
      | httpError => simp at hn
      | jsonError => simp at hn
      | payload s d =>
        cases s with
        | false => simp at hn
        | true =>
          cases d with
          | none => simp at hn
          | some d0 =>
            simp only [List.mem_cons, List.not_mem_nil, or_false] at hn
            rcases hn with h | h
            · exact absurd h (by simp)
            · have : n = d0 := by
                simpa using h
              subst this
              refine ⟨rfl, ?_⟩
              split
              · simp_all
              · rfl

/-- Witness for C9: the abort property applied to a non-2xx response. -/
theorem claim9_witness :
    handleProcessAndSave (("some transcript").data) ExtractOutcome.httpError = [] :=
  (claim9_failure_aborts (("some transcript").data) ExtractOutcome.httpError).1
    (fun d h => ExtractOutcome.noConfusion h)

/-- Claim C3, counterexample: a note whose history value carries a
trailing space satisfies the claim's stated no-collision hypotheses (no
label strings, no commas, no delimiter match in any value), yet the
history blob is not byte-stable: the parser trims the value, so the
second flattening differs from the first. -/
theorem claim3_counterexample :
    claimSafeVal (("Asthma ").data) ∧
    historyText
        (parseChartInfoToStructuredNote
          (flattenChart c3CexNote (("r").data))).history ≠
      historyText c3CexNote.history := by
  constructor
  · decide
  · decide

/-- Claim C4, counterexample: extra_info is not persisted at all — the
flattened record has no column for it and the parser always restores it
empty, so a note with non-empty extra_info is not reproduced. -/
theorem claim4_counterexample :
    c4CexNote.extra_info ≠ [] ∧
    (∀ v ∈ [c4CexNote.extra_info], claimSafeVal v) ∧
    (parseChartInfoToStructuredNote
        (flattenChart c4CexNote (("r").data))).extra_info = [] := by
  refine ⟨by decide, by decide, by decide⟩

/-! ## Case-insensitive matching lemmas -/

theorem icStarts_refl_append (p t : Str) : icStarts p (p ++ t) = true := by
  induction p with
  | nil => rfl
  | cons c cs ih => simp [icStarts, ih]

theorem icStarts_mono {p x : Str} (h : icStarts p x = true) (t : Str) :
    icStarts p (x ++ t) = true := by
  induction p generalizing x with
  | nil => rfl
  | cons c cs ih =>
    cases x with
    | nil => exact absurd h (by simp [icStarts])
    | cons y ys =>
      simp only [icStarts, Bool.and_eq_true] at h
      simp only [List.cons_append, icStarts, Bool.and_eq_true]
      exact ⟨h.1, ih h.2⟩

theorem icStarts_take {p x r : Str} (h : icStarts p (x ++ r) = true) :
    icStarts (p.take x.length) x = true := by
  induction x generalizing p with
  | nil => rfl
  | cons y ys ih =>
    cases p with
    | nil => rfl
    | cons c cs =>
      simp only [List.cons_append, icStarts, Bool.and_eq_true] at h
      simp only [List.length_cons, List.take_succ_cons, icStarts, Bool.and_eq_true]
      exact ⟨h.1, ih h.2⟩

theorem icStarts_head_ne {c d : Char} (h : lowerC c ≠ lowerC d) (cs s : Str) :
    icStarts (c :: cs) (d :: s) = false := by
  simp [icStarts, h]

theorem icStarts_extend_blocked {p x : Str} {b : Char} (hb1 : lowerC b = b)
    (hb2 : b ∉ p.map lowerC) (h : icStarts p x = false) (t : Str) :
    icStarts p (x ++ b :: t) = false := by
  induction p generalizing x with
  | nil => exact absurd h (by simp [icStarts])
  | cons c cs ih =>
    cases x with
    | nil =>
      have hc : lowerC c ≠ lowerC b := by
        intro hc
        rw [hb1] at hc
        exact hb2 (hc ▸ List.mem_map_of_mem lowerC (List.mem_cons_self c cs))
      simpa using icStarts_head_ne hc cs t
    | cons y ys =>
      have hb2' : b ∉ cs.map lowerC := by
        intro hm
        exact hb2 (by rw [List.map_cons]; exact List.mem_cons_of_mem _ hm)
      simp only [icStarts, Bool.and_eq_false_iff] at h
      simp only [List.cons_append, icStarts, Bool.and_eq_false_iff]
      rcases h with h | h
      · exact Or.inl h
      · exact Or.inr (ih hb2' h)

theorem icFind_none_cons {pat : Str} {c : Char} {rest : Str}
    (h : icFind pat (c :: rest) = none) :
    icStarts pat (c :: rest) = false ∧ icFind pat rest = none := by
  unfold icFind at h
  split at h
  · exact absurd h (by simp)
  · next hs => exact ⟨Bool.not_eq_true _ ▸ (by simpa using hs), h⟩

theorem icFind_none_of_parts {pat : Str} {c : Char} {rest : Str}
    (h1 : icStarts pat (c :: rest) = false) (h2 : icFind pat rest = none) :
    icFind pat (c :: rest) = none := by
  unfold icFind
  rw [h1]
  simpa using h2

theorem icFind_none_starts {pat a : Str} (hp : pat ≠ []) (h : icFind pat a = none) :
    ∀ q, icStarts pat (List.drop q a) = false := by
  induction a with
  | nil =>
    intro q
    obtain ⟨c, cs, rfl⟩ := List.exists_cons_of_ne_nil hp
    simp [icStarts]
  | cons c rest ih =>
    intro q
    obtain ⟨hs, hrest⟩ := icFind_none_cons h
    cases q with
    | zero => exact hs
    | succ q' => exact ih hrest q'

theorem icFind_append_block {pat a : Str} {b : Char} (hb1 : lowerC b = b)
    (hb2 : b ∉ pat.map lowerC) (h : icFind pat a = none) (t : Str) :
    icFind pat (a ++ b :: t) = icFind pat (b :: t) := by
  induction a with
  | nil => rfl
  | cons c rest ih =>
    obtain ⟨hs, hrest⟩ := icFind_none_cons h
    have hs' : icStarts pat ((c :: rest) ++ b :: t) = false :=
      icStarts_extend_blocked hb1 hb2 hs t
    rw [List.cons_append]
    unfold icFind
    rw [show (c :: (rest ++ b :: t)) = (c :: rest) ++ b :: t from rfl, hs']
    simpa using ih hrest

theorem icFind_cons_ne {c d : Char} (h : lowerC c ≠ lowerC d) (cs t : Str) :
    icFind (c :: cs) (d :: t) = icFind (c :: cs) t := by
  have hs : icStarts (c :: cs) (d :: t) = false := icStarts_head_ne h cs t
  conv_lhs => unfold icFind
  rw [hs]
  simp

theorem icFind_found {pat : Str} (hne : pat ≠ []) (t : Str) :
    icFind pat (pat ++ t) = some t := by
  obtain ⟨c, cs, rfl⟩ := List.exists_cons_of_ne_nil hne
  rw [List.cons_append]
  conv_lhs => unfold icFind
  rw [show (c :: (cs ++ t)) = (c :: cs) ++ t from rfl, icStarts_refl_append]
  simp [List.drop_left]

theorem icFind_cfree {pat c0 : Str} (h : cfree pat c0 = true) (v : Str) :
    icFind pat (c0 ++ v) = icFind pat v := by
  induction c0 with
  | nil => rfl
  | cons c rest ih =>
    unfold cfree at h
    simp only [Bool.and_eq_true, Bool.not_eq_true'] at h
    have hs : icStarts pat ((c :: rest) ++ v) = false := by
      cases hx : icStarts pat ((c :: rest) ++ v)
      · rfl
      · have h1 := h.1
        have h2 := icStarts_take hx
        simp only [List.length_cons] at h1 h2
        exact absurd h2 (by simp [h1])
    rw [List.cons_append]
    conv_lhs => unfold icFind
    rw [show (c :: (rest ++ v)) = (c :: rest) ++ v from rfl, hs]
    simpa using ih h.2

/-! ## Trim lemmas -/

theorem length_dropWhile_le' (p : Char → Bool) (l : Str) :
    (l.dropWhile p).length ≤ l.length := by
  induction l with
  | nil => simp
  | cons c l' ih =>
    rw [List.dropWhile_cons]
    split
    · exact Nat.le_trans ih (by simp)
    · simp

theorem dropWhile_eq_self_head {p : Char → Bool} {l l' : Str} {c : Char}
    (h : l.dropWhile p = l) (hl : l = c :: l') : p c = false := by
  subst hl
  rw [List.dropWhile_cons] at h
  by_cases hc : p c = true
  · rw [if_pos hc] at h
    have := length_dropWhile_le' p l'
    rw [h] at this
    simp at this
  · simpa using hc

theorem jsTrimR_length_le (s : Str) : (jsTrimR s).length ≤ s.length := by
  unfold jsTrimR
  calc (s.reverse.dropWhile isWsC).reverse.length
      = (s.reverse.dropWhile isWsC).length := by rw [List.length_reverse]
    _ ≤ s.reverse.length := length_dropWhile_le' isWsC s.reverse
    _ = s.length := by rw [List.length_reverse]

theorem trimmed_L {v : Str} (h : jsTrim v = v) : jsTrimL v = v := by
  have hle : (jsTrimL v).length ≤ v.length := length_dropWhile_le' isWsC v
  have hlen : v.length ≤ (jsTrimL v).length := by
    calc v.length = (jsTrim v).length := by rw [h]
      _ = (jsTrimR (jsTrimL v)).length := rfl
      _ ≤ (jsTrimL v).length := jsTrimR_length_le _
  have heq : (jsTrimL v).length = v.length := Nat.le_antisymm hle hlen
  have hsuff : v.dropWhile isWsC <:+ v := List.dropWhile_suffix isWsC
  exact List.IsSuffix.eq_of_length hsuff heq

theorem trimmed_R {v : Str} (h : jsTrim v = v) : jsTrimR v = v := by
  have hL := trimmed_L h
  calc jsTrimR v = jsTrimR (jsTrimL v) := by rw [hL]
    _ = jsTrim v := rfl
    _ = v := h

theorem trimmed_head_not_ws {v v' : Str} {c : Char} (h : jsTrim v = v)
    (hv : v = c :: v') : isWsC c = false :=
  dropWhile_eq_self_head (trimmed_L h) hv

theorem trimmed_rev_head_not_ws {v rc : Str} {c : Char} (h : jsTrim v = v)
    (hv : v.reverse = c :: rc) : isWsC c = false := by
  have h2 : (v.reverse.dropWhile isWsC).reverse = v := trimmed_R h
  have h3 := congrArg List.reverse h2
  rw [List.reverse_reverse] at h3
  exact dropWhile_eq_self_head h3 hv

theorem dropWhile_trimmed_append {v : Str} (h : jsTrim v = v) (hne : v ≠ [])
    (r : Str) : (v ++ r).dropWhile isWsC = v ++ r := by
  obtain ⟨c, v', rfl⟩ := List.exists_cons_of_ne_nil hne
  rw [List.cons_append, List.dropWhile_cons, trimmed_head_not_ws h rfl]
  simp

theorem takeWhile_trimmed_append {v : Str} (h : jsTrim v = v) (hne : v ≠ [])
    (r : Str) : (v ++ r).takeWhile isWsC = [] := by
  obtain ⟨c, v', rfl⟩ := List.exists_cons_of_ne_nil hne
  rw [List.cons_append, List.takeWhile_cons, trimmed_head_not_ws h rfl]
  simp

theorem jsTrimR_append_ws {w : Str} (hw : ∀ c ∈ w, isWsC c = true) (v : Str) :
    jsTrimR (v ++ w) = jsTrimR v := by
  unfold jsTrimR
  rw [List.reverse_append, List.dropWhile_append_of_pos]
  intro a ha
  exact hw a (List.mem_reverse.mp ha)

theorem jsTrim_trimmed_append_ws {v w : Str} (h : jsTrim v = v) (hne : v ≠ [])
    (hw : ∀ c ∈ w, isWsC c = true) : jsTrim (v ++ w) = v := by
  unfold jsTrim
  rw [show jsTrimL (v ++ w) = (v ++ w).dropWhile isWsC from rfl,
    dropWhile_trimmed_append h hne, jsTrimR_append_ws hw, trimmed_R h]

/-! ## History codec lemmas -/

theorem lowerC_nl : lowerC '\n' = '\n' := by decide

theorem nl2_ws : ∀ c ∈ nl2, isWsC c = true := by decide

theorem anchors_ne_nil : ∀ a ∈ histAnchors, a ≠ [] := by decide

theorem anchors_no_nl : ∀ a ∈ histAnchors, '\n' ∉ a.map lowerC := by decide

theorem icStarts_ne_head {a : Str} {c d : Char} {cs : Str} (ha : a = c :: cs)
    (h : lowerC c ≠ lowerC d) (x : Str) : icStarts a (d :: x) = false := by
  rw [ha]
  exact icStarts_head_ne h cs x

theorem icStarts_nl_false : ∀ a ∈ histAnchors, ∀ x : Str,
    icStarts a ('\n' :: x) = false := by
  intro a ha x
  simp only [histAnchors, List.mem_cons, List.not_mem_nil, or_false] at ha
  rcases ha with rfl | rfl | rfl | rfl
  · exact icStarts_ne_head (by decide : pmhLabel ++ [':'] =
      'P' :: (("ast Medical History:").data)) (by decide) x
  · exact icStarts_ne_head (by decide : shLabel ++ [':'] =
      'S' :: (("urgical History:").data)) (by decide) x
  · exact icStarts_ne_head (by decide : fhLabel ++ [':'] =
      'F' :: (("amily History:").data)) (by decide) x
  · exact icStarts_ne_head (by decide : socLabel ++ [':'] =
      'S' :: (("ocial History:").data)) (by decide) x

theorem isAnchorAt_false_iff {s : Str} :
    isAnchorAt s = false ↔ ∀ a ∈ histAnchors, icStarts a s = false := by
  simp [isAnchorAt, List.any_eq_false]

theorem isAnchorAt_nl (x : Str) : isAnchorAt ('\n' :: x) = false :=
  isAnchorAt_false_iff.mpr (fun a ha => icStarts_nl_false a ha x)

theorem isAnchorAt_of_starts {a s : Str} (ha : a ∈ histAnchors)
    (h : icStarts a s = true) : isAnchorAt s = true := by
  unfold isAnchorAt
  exact List.any_eq_true.mpr ⟨a, ha, h⟩

theorem captureToAnchor_append {v r : Str}
    (hv : ∀ a ∈ histAnchors, icFind a v = none)
    (hr : r = [] ∨ ∃ r', r = '\n' :: r') :
    captureToAnchor (v ++ r) = v ++ captureToAnchor r := by
  induction v with
  | nil => rfl
  | cons c v' ih =>
    have hna : isAnchorAt ((c :: v') ++ r) = false := by
      rw [isAnchorAt_false_iff]
      intro a ha
      have h1 := (icFind_none_cons (hv a ha)).1
      rcases hr with rfl | ⟨r', rfl⟩
      · simpa using h1
      · exact icStarts_extend_blocked lowerC_nl (anchors_no_nl a ha) h1 r'
    have hv' : ∀ a ∈ histAnchors, icFind a v' = none :=
      fun a ha => (icFind_none_cons (hv a ha)).2
    rw [List.cons_append]
    conv_lhs => unfold captureToAnchor
    rw [show (c :: (v' ++ r)) = (c :: v') ++ r from rfl, hna]
    simp only [Bool.false_eq_true, if_false, List.cons_append]
    rw [ih hv']

theorem captureToAnchor_of_anchor {s : Str} (h : isAnchorAt s = true) :
    captureToAnchor s = [] := by
  cases s with
  | nil => exact absurd h (by decide)
  | cons c s' =>
    unfold captureToAnchor
    rw [h]
    simp

theorem captureToAnchor_nl2 {s : Str} (h : isAnchorAt s = true) :
    captureToAnchor ('\n' :: '\n' :: s) = nl2 := by
  unfold captureToAnchor
  rw [isAnchorAt_nl]
  simp only [Bool.false_eq_true, if_false]
  unfold captureToAnchor
  rw [isAnchorAt_nl]
  simp only [Bool.false_eq_true, if_false]
  rw [captureToAnchor_of_anchor h]
  rfl

theorem joinSep_decomp (sep : Str) : ∀ (cs ds : List Str), ds ≠ [] →
    joinSep sep (cs ++ ds) = joinPre sep cs (joinSep sep ds) := by
  intro cs
  induction cs with
  | nil => intro ds _; rfl
  | cons c cs' ih =>
    intro ds hds
    cases hx : cs' ++ ds with
    | nil =>
      rcases List.append_eq_nil.mp hx with ⟨_, h2⟩
      exact absurd h2 hds
    | cons e es =>
      have h1 : joinSep sep ((c :: cs') ++ ds) = c ++ sep ++ joinSep sep (cs' ++ ds) := by
        rw [List.cons_append, hx]
        rfl
      rw [h1, ih ds hds]
      rfl

theorem histChunks_cons_pos {l v : Str} {ps : List (Str × Str)} (hv : v ≠ []) :
    histChunks ((l, v) :: ps) = (l ++ colonSp ++ v) :: histChunks ps := by
  simp [histChunks, chunkOf, List.filterMap_cons, hv]

theorem histChunks_cons_neg {l v : Str} {ps : List (Str × Str)} (hv : v = []) :
    histChunks ((l, v) :: ps) = histChunks ps := by
  simp [histChunks, List.filterMap_cons, hv]

theorem histChunks_shape : ∀ {ps : List (Str × Str)} {c0 : Str} {cs0 : List Str},
    histChunks ps = c0 :: cs0 →
    ∃ q, q ∈ ps ∧ q.2 ≠ [] ∧ c0 = q.1 ++ colonSp ++ q.2 := by
  intro ps
  induction ps with
  | nil => intro c0 cs0 h; exact absurd h (by simp [histChunks])
  | cons q ps' ih =>
    intro c0 cs0 h
    by_cases hv : q.2 = []
    · obtain ⟨l, v⟩ := q
      rw [histChunks_cons_neg hv] at h
      obtain ⟨q', hq1, hq2, hq3⟩ := ih h
      exact ⟨q', List.mem_cons_of_mem _ hq1, hq2, hq3⟩
    · obtain ⟨l, v⟩ := q
      rw [histChunks_cons_pos hv] at h
      injection h with h1 _
      exact ⟨(l, v), List.mem_cons_self _ _, hv, h1.symm⟩

theorem pat_head_ne_nl {pat : Str} {p0 : Char} {ps : Str} (hp : pat = p0 :: ps)
    (hnl : '\n' ∉ pat.map lowerC) : lowerC p0 ≠ lowerC '\n' := by
  rw [lowerC_nl]
  intro hc
  subst hp
  exact hnl (hc ▸ List.mem_map_of_mem lowerC (List.mem_cons_self p0 ps))

theorem chunk_assoc (l v r : Str) :
    l ++ colonSp ++ v ++ r = (l ++ colonSp) ++ (v ++ r) := by
  simp [List.append_assoc]

theorem chunk_pat_assoc (l v : Str) :
    l ++ colonSp ++ v = (l ++ [':']) ++ (' ' :: v) := by
  simp [colonSp, List.append_assoc]

theorem icFind_joinPre_skip {pat : Str} {p0 : Char} {ps0 : Str}
    (hp : pat = p0 :: ps0) (hnl : '\n' ∉ pat.map lowerC) :
    ∀ (ps : List (Str × Str)) (r : Str),
      (∀ q ∈ ps, q.2 ≠ [] →
        cfree pat (q.1 ++ colonSp) = true ∧ icFind pat q.2 = none) →
      icFind pat (joinPre nl2 (histChunks ps) r) = icFind pat r := by
  intro ps
  induction ps with
  | nil => intro r _; rfl
  | cons q ps' ih =>
    intro r hall
    obtain ⟨l, v⟩ := q
    by_cases hv : v = []
    · rw [histChunks_cons_neg hv]
      exact ih r (fun q hq => hall q (List.mem_cons_of_mem _ hq))
    · obtain ⟨hcf, hfind⟩ := hall (l, v) (List.mem_cons_self _ _) hv
      rw [histChunks_cons_pos hv]
      have e1 : joinPre nl2 ((l ++ colonSp ++ v) :: histChunks ps') r =
          (l ++ colonSp) ++ (v ++ '\n' :: '\n' :: joinPre nl2 (histChunks ps') r) := by
        show l ++ colonSp ++ v ++ nl2 ++ joinPre nl2 (histChunks ps') r = _
        simp [nl2, List.append_assoc]
      rw [e1, icFind_cfree hcf, icFind_append_block lowerC_nl hnl hfind]
      have hhd := pat_head_ne_nl hp hnl
      rw [hp, icFind_cons_ne hhd, icFind_cons_ne hhd, ← hp]
      exact ih r (fun q hq => hall q (List.mem_cons_of_mem _ hq))

theorem icFind_join_none {pat : Str} {p0 : Char} {ps0 : Str}
    (hp : pat = p0 :: ps0) (hnl : '\n' ∉ pat.map lowerC) :
    ∀ (ps : List (Str × Str)),
      (∀ q ∈ ps, q.2 ≠ [] →
        cfree pat (q.1 ++ colonSp) = true ∧ icFind pat q.2 = none) →
      icFind pat (joinSep nl2 (histChunks ps)) = none := by
  intro ps
  induction ps with
  | nil => intro _; rw [hp]; rfl
  | cons q ps' ih =>
    intro hall
    obtain ⟨l, v⟩ := q
    by_cases hv : v = []
    · rw [histChunks_cons_neg hv]
      exact ih (fun q hq => hall q (List.mem_cons_of_mem _ hq))
    · obtain ⟨hcf, hfind⟩ := hall (l, v) (List.mem_cons_self _ _) hv
      rw [histChunks_cons_pos hv]
      cases hx : histChunks ps' with
      | nil =>
        have e1 : joinSep nl2 [l ++ colonSp ++ v] = (l ++ colonSp) ++ v := by
          show l ++ colonSp ++ v = _
          simp [List.append_assoc]
        rw [e1, icFind_cfree hcf]
        exact hfind
      | cons c0 cs0 =>
        have e1 : joinSep nl2 ((l ++ colonSp ++ v) :: c0 :: cs0) =
            (l ++ colonSp) ++ (v ++ '\n' :: '\n' :: joinSep nl2 (c0 :: cs0)) := by
          show l ++ colonSp ++ v ++ nl2 ++ joinSep nl2 (c0 :: cs0) = _
          simp [nl2, List.append_assoc]
        rw [e1, icFind_cfree hcf, icFind_append_block lowerC_nl hnl hfind]
        have hhd := pat_head_ne_nl hp hnl
        rw [hp, icFind_cons_ne hhd, icFind_cons_ne hhd, ← hp, ← hx]
        exact ih (fun q hq => hall q (List.mem_cons_of_mem _ hq))

theorem isAnchorAt_joinSep_chunks {ps : List (Str × Str)} {c0 : Str} {cs0 : List Str}
    (hpost : ∀ q ∈ ps, q.1 ++ [':'] ∈ histAnchors)
    (hx : histChunks ps = c0 :: cs0) :
    isAnchorAt (joinSep nl2 (c0 :: cs0)) = true := by
  obtain ⟨q, hq, hqne, hq0⟩ := histChunks_shape hx
  have hmem := hpost q hq
  have hstart : ∀ x : Str, icStarts (q.1 ++ [':']) (c0 ++ x) = true := by
    intro x
    have e : c0 ++ x = (q.1 ++ [':']) ++ (' ' :: (q.2 ++ x)) := by
      rw [hq0]
      simp [colonSp, List.append_assoc]
    rw [e]
    exact icStarts_refl_append _ _
  cases cs0 with
  | nil =>
    have e : joinSep nl2 [c0] = c0 ++ [] := by simp [joinSep]
    rw [e]
    exact isAnchorAt_of_starts hmem (hstart [])
  | cons c1 cs1 =>
    have e : joinSep nl2 (c0 :: c1 :: cs1) = c0 ++ (nl2 ++ joinSep nl2 (c1 :: cs1)) := by
      show c0 ++ nl2 ++ joinSep nl2 (c1 :: cs1) = _
      simp [List.append_assoc]
    rw [e]
    exact isAnchorAt_of_starts hmem (hstart _)

theorem parseHistory_found (l v : Str) (pre post : List (Str × Str))
    (hl : l ++ [':'] ∈ histAnchors)
    (hv : v ≠ []) (htrim : jsTrim v = v)
    (hanch : ∀ a ∈ histAnchors, icFind a v = none)
    (hpre : ∀ q ∈ pre, q.2 ≠ [] →
      cfree (l ++ [':']) (q.1 ++ colonSp) = true ∧ icFind (l ++ [':']) q.2 = none)
    (hpost : ∀ q ∈ post, q.1 ++ [':'] ∈ histAnchors) :
    parseHistoryField l (joinSep nl2 (histChunks (pre ++ (l, v) :: post))) = v := by
  have hpne : l ++ [':'] ≠ [] := by simp
  obtain ⟨p0, ps0, hp⟩ := List.exists_cons_of_ne_nil hpne
  have hnl := anchors_no_nl _ hl
  have e0 : histChunks (pre ++ (l, v) :: post) =
      histChunks pre ++ ((l ++ colonSp ++ v) :: histChunks post) := by
    unfold histChunks
    rw [List.filterMap_append]
    congr 1
    exact (histChunks_cons_pos hv)
  rw [e0, joinSep_decomp nl2 _ _ (by simp)]
  unfold parseHistoryField
  rw [icFind_joinPre_skip hp hnl pre _ hpre]
  cases hx : histChunks post with
  | nil =>
    have e1 : joinSep nl2 ((l ++ colonSp ++ v) :: []) = (l ++ [':']) ++ (' ' :: v) := by
      show l ++ colonSp ++ v = _
      exact chunk_pat_assoc l v
    rw [e1, icFind_found hpne]
    show jsTrim (captureToAnchor ((' ' :: v).dropWhile isWsC)) = v
    have e2 : (' ' :: v).dropWhile isWsC = v := by
      rw [List.dropWhile_cons]
      simp only [show isWsC ' ' = true from rfl, if_true]
      exact trimmed_L htrim
    rw [e2]
    have e3 : captureToAnchor v = v := by
      have h4 := @captureToAnchor_append v [] hanch (Or.inl rfl)
      rw [List.append_nil] at h4
      rw [h4, show captureToAnchor [] = [] from rfl, List.append_nil]
    rw [e3]
    exact htrim
  | cons c0 cs0 =>
    have e1 : joinSep nl2 ((l ++ colonSp ++ v) :: c0 :: cs0) =
        (l ++ [':']) ++ (' ' :: (v ++ '\n' :: '\n' :: joinSep nl2 (c0 :: cs0))) := by
      show l ++ colonSp ++ v ++ nl2 ++ joinSep nl2 (c0 :: cs0) = _
      simp [colonSp, nl2, List.append_assoc]
    rw [e1, icFind_found hpne]
    show jsTrim (captureToAnchor
      ((' ' :: (v ++ '\n' :: '\n' :: joinSep nl2 (c0 :: cs0))).dropWhile isWsC)) = v
    have e2 : (' ' :: (v ++ '\n' :: '\n' :: joinSep nl2 (c0 :: cs0))).dropWhile isWsC =
        v ++ '\n' :: '\n' :: joinSep nl2 (c0 :: cs0) := by
      rw [List.dropWhile_cons]
      simp only [show isWsC ' ' = true from rfl, if_true]
      exact dropWhile_trimmed_append htrim hv _
    rw [e2, captureToAnchor_append hanch (Or.inr ⟨_, rfl⟩),
      captureToAnchor_nl2 (isAnchorAt_joinSep_chunks hpost hx)]
    exact jsTrim_trimmed_append_ws htrim hv nl2_ws

theorem parseHistory_absent (l : Str) (ps : List (Str × Str))
    (hl : l ++ [':'] ∈ histAnchors)
    (hall : ∀ q ∈ ps, q.2 ≠ [] →
      cfree (l ++ [':']) (q.1 ++ colonSp) = true ∧ icFind (l ++ [':']) q.2 = none) :
    parseHistoryField l (joinSep nl2 (histChunks ps)) = [] := by
  have hpne : l ++ [':'] ≠ [] := by simp
  obtain ⟨p0, ps0, hp⟩ := List.exists_cons_of_ne_nil hpne
  have hnl := anchors_no_nl _ hl
  unfold parseHistoryField
  rw [icFind_join_none hp hnl ps hall]

theorem historyOK_anchor_free {h : History} (hOK : historyOK h) :
    ∀ pat ∈ histAnchors, ∀ q ∈ histPairs h, icFind pat q.2 = none := by
  intro pat hpat q hq
  obtain ⟨h1, h2, h3, h4⟩ := hOK
  simp only [histPairs, List.mem_cons, List.not_mem_nil, or_false] at hq
  rcases hq with rfl | rfl | rfl | rfl
  · exact h1.2 pat hpat
  · exact h2.2 pat hpat
  · exact h3.2 pat hpat
  · exact h4.2 pat hpat

theorem histPairs_decomp_pmh (h : History) :
    histPairs h = [] ++ (pmhLabel, h.past_medical_history) ::
      [(shLabel, h.surgical_history), (fhLabel, h.family_history),
       (socLabel, h.social_history)] := rfl

theorem histPairs_decomp_sh (h : History) :
    histPairs h = [(pmhLabel, h.past_medical_history)] ++
      (shLabel, h.surgical_history) ::
      [(fhLabel, h.family_history), (socLabel, h.social_history)] := rfl

theorem histPairs_decomp_fh (h : History) :
    histPairs h = [(pmhLabel, h.past_medical_history),
      (shLabel, h.surgical_history)] ++
      (fhLabel, h.family_history) :: [(socLabel, h.social_history)] := rfl

theorem histPairs_decomp_soc (h : History) :
    histPairs h = [(pmhLabel, h.past_medical_history),
      (shLabel, h.surgical_history), (fhLabel, h.family_history)] ++
      (socLabel, h.social_history) :: [] := rfl

theorem parsedHistory_all (h : History) (hOK : historyOK h) :
    parseHistoryField pmhLabel (historyText h) = h.past_medical_history ∧
    parseHistoryField shLabel (historyText h) = h.surgical_history ∧
    parseHistoryField fhLabel (historyText h) = h.family_history ∧
    parseHistoryField socLabel (historyText h) = h.social_history := by
  have hfree := historyOK_anchor_free hOK
  refine ⟨?_, ?_, ?_, ?_⟩
  · by_cases hv : h.past_medical_history = []
    · rw [hv]
      refine parseHistory_absent pmhLabel (histPairs h) (by decide) ?_
      intro q hq hq2
      obtain ⟨ql, qv⟩ := q
      have hf := hfree (pmhLabel ++ [':']) (by decide) (ql, qv) hq
      simp only [histPairs, List.mem_cons, List.not_mem_nil, or_false,
        Prod.mk.injEq] at hq
      rcases hq with ⟨rfl, rfl⟩ | ⟨rfl, rfl⟩ | ⟨rfl, rfl⟩ | ⟨rfl, rfl⟩
      · exact absurd hv (by simpa using hq2)
      · exact ⟨(by decide : cfree (pmhLabel ++ [':']) (shLabel ++ colonSp) = true), hf⟩
      · exact ⟨(by decide : cfree (pmhLabel ++ [':']) (fhLabel ++ colonSp) = true), hf⟩
      · exact ⟨(by decide : cfree (pmhLabel ++ [':']) (socLabel ++ colonSp) = true), hf⟩
    · rw [show historyText h = joinSep nl2 (histChunks (histPairs h)) from rfl,
        histPairs_decomp_pmh h]
      refine parseHistory_found pmhLabel h.past_medical_history _ _ (by decide) hv hOK.1.1
        (fun a ha => hfree a ha (pmhLabel, h.past_medical_history) (by simp [histPairs])) ?_ ?_
      · intro q hq
        simp at hq
      · intro q hq
        obtain ⟨ql, qv⟩ := q
        simp only [List.mem_cons, List.not_mem_nil, or_false, Prod.mk.injEq] at hq
        rcases hq with ⟨rfl, rfl⟩ | ⟨rfl, rfl⟩ | ⟨rfl, rfl⟩
        · exact (by decide : shLabel ++ [':'] ∈ histAnchors)
        · exact (by decide : fhLabel ++ [':'] ∈ histAnchors)
        · exact (by decide : socLabel ++ [':'] ∈ histAnchors)
  · by_cases hv : h.surgical_history = []
    · rw [hv]
      refine parseHistory_absent shLabel (histPairs h) (by decide) ?_
      intro q hq hq2
      obtain ⟨ql, qv⟩ := q
      have hf := hfree (shLabel ++ [':']) (by decide) (ql, qv) hq
      simp only [histPairs, List.mem_cons, List.not_mem_nil, or_false,
        Prod.mk.injEq] at hq
      rcases hq with ⟨rfl, rfl⟩ | ⟨rfl, rfl⟩ | ⟨rfl, rfl⟩ | ⟨rfl, rfl⟩
      · exact ⟨(by decide : cfree (shLabel ++ [':']) (pmhLabel ++ colonSp) = true), hf⟩
      · exact absurd hv (by simpa using hq2)
      · exact ⟨(by decide : cfree (shLabel ++ [':']) (fhLabel ++ colonSp) = true), hf⟩
      · exact ⟨(by decide : cfree (shLabel ++ [':']) (socLabel ++ colonSp) = true), hf⟩
    · rw [show historyText h = joinSep nl2 (histChunks (histPairs h)) from rfl,
        histPairs_decomp_sh h]
      refine parseHistory_found shLabel h.surgical_history _ _ (by decide) hv hOK.2.1.1
        (fun a ha => hfree a ha (shLabel, h.surgical_history) (by simp [histPairs])) ?_ ?_
      · intro q hq
        intro hq2
        obtain ⟨ql, qv⟩ := q
        have hf := hfree (shLabel ++ [':']) (by decide) (ql, qv) (by
          simp only [histPairs, List.mem_cons, List.not_mem_nil, or_false]
          simp only [List.mem_cons, List.not_mem_nil, or_false, Prod.mk.injEq] at hq
          exact Or.inl (Prod.ext_iff.mpr hq))
        simp only [List.mem_cons, List.not_mem_nil, or_false, Prod.mk.injEq] at hq
        obtain ⟨rfl, rfl⟩ := hq
        exact ⟨(by decide : cfree (shLabel ++ [':']) (pmhLabel ++ colonSp) = true), hf⟩
      · intro q hq
        obtain ⟨ql, qv⟩ := q
        simp only [List.mem_cons, List.not_mem_nil, or_false, Prod.mk.injEq] at hq
        rcases hq with ⟨rfl, rfl⟩ | ⟨rfl, rfl⟩
        · exact (by decide : fhLabel ++ [':'] ∈ histAnchors)
        · exact (by decide : socLabel ++ [':'] ∈ histAnchors)
  · by_cases hv : h.family_history = []
    · rw [hv]
      refine parseHistory_absent fhLabel (histPairs h) (by decide) ?_
      intro q hq hq2
      obtain ⟨ql, qv⟩ := q
      have hf := hfree (fhLabel ++ [':']) (by decide) (ql, qv) hq
      simp only [histPairs, List.mem_cons, List.not_mem_nil, or_false,
        Prod.mk.injEq] at hq
      rcases hq with ⟨rfl, rfl⟩ | ⟨rfl, rfl⟩ | ⟨rfl, rfl⟩ | ⟨rfl, rfl⟩
      · exact ⟨(by decide : cfree (fhLabel ++ [':']) (pmhLabel ++ colonSp) = true), hf⟩
      · exact ⟨(by decide : cfree (fhLabel ++ [':']) (shLabel ++ colonSp) = true), hf⟩
      · exact absurd hv (by simpa using hq2)
      · exact ⟨(by decide : cfree (fhLabel ++ [':']) (socLabel ++ colonSp) = true), hf⟩
    · rw [show historyText h = joinSep nl2 (histChunks (histPairs h)) from rfl,
        histPairs_decomp_fh h]
      refine parseHistory_found fhLabel h.family_history _ _ (by decide) hv hOK.2.2.1.1
        (fun a ha => hfree a ha (fhLabel, h.family_history) (by simp [histPairs])) ?_ ?_
      · intro q hq
        intro hq2
        obtain ⟨ql, qv⟩ := q
        have hf := hfree (fhLabel ++ [':']) (by decide) (ql, qv) (by
          simp only [histPairs, List.mem_cons, List.not_mem_nil, or_false]
          simp only [List.mem_cons, List.not_mem_nil, or_false, Prod.mk.injEq] at hq
          rcases hq with hq | hq
          · exact Or.inl (Prod.ext_iff.mpr hq)
          · exact Or.inr (Or.inl (Prod.ext_iff.mpr hq)))
        simp only [List.mem_cons, List.not_mem_nil, or_false, Prod.mk.injEq] at hq
        rcases hq with ⟨rfl, rfl⟩ | ⟨rfl, rfl⟩
        · exact ⟨(by decide : cfree (fhLabel ++ [':']) (pmhLabel ++ colonSp) = true), hf⟩
        · exact ⟨(by decide : cfree (fhLabel ++ [':']) (shLabel ++ colonSp) = true), hf⟩
      · intro q hq
        obtain ⟨ql, qv⟩ := q
        simp only [List.mem_cons, List.not_mem_nil, or_false, Prod.mk.injEq] at hq
        obtain ⟨rfl, rfl⟩ := hq
        exact (by decide : socLabel ++ [':'] ∈ histAnchors)
  · by_cases hv : h.social_history = []
    · rw [hv]
      refine parseHistory_absent socLabel (histPairs h) (by decide) ?_
      intro q hq hq2
      obtain ⟨ql, qv⟩ := q
      have hf := hfree (socLabel ++ [':']) (by decide) (ql, qv) hq
      simp only [histPairs, List.mem_cons, List.not_mem_nil, or_false,
        Prod.mk.injEq] at hq
      rcases hq with ⟨rfl, rfl⟩ | ⟨rfl, rfl⟩ | ⟨rfl, rfl⟩ | ⟨rfl, rfl⟩
      · exact ⟨(by decide : cfree (socLabel ++ [':']) (pmhLabel ++ colonSp) = true), hf⟩
      · exact ⟨(by decide : cfree (socLabel ++ [':']) (shLabel ++ colonSp) = true), hf⟩
      · exact ⟨(by decide : cfree (socLabel ++ [':']) (fhLabel ++ colonSp) = true), hf⟩
      · exact absurd hv (by simpa using hq2)
    · rw [show historyText h = joinSep nl2 (histChunks (histPairs h)) from rfl,
        histPairs_decomp_soc h]
      refine parseHistory_found socLabel h.social_history _ _ (by decide) hv hOK.2.2.2.1
        (fun a ha => hfree a ha (socLabel, h.social_history) (by simp [histPairs])) ?_ ?_
      · intro q hq
        intro hq2
        obtain ⟨ql, qv⟩ := q
        have hf := hfree (socLabel ++ [':']) (by decide) (ql, qv) (by
          simp only [histPairs, List.mem_cons, List.not_mem_nil, or_false]
          simp only [List.mem_cons, List.not_mem_nil, or_false, Prod.mk.injEq] at hq
          rcases hq with hq | hq | hq
          · exact Or.inl (Prod.ext_iff.mpr hq)
          · exact Or.inr (Or.inl (Prod.ext_iff.mpr hq))
          · exact Or.inr (Or.inr (Or.inl (Prod.ext_iff.mpr hq))))
        simp only [List.mem_cons, List.not_mem_nil, or_false, Prod.mk.injEq] at hq
        rcases hq with ⟨rfl, rfl⟩ | ⟨rfl, rfl⟩ | ⟨rfl, rfl⟩
        · exact ⟨(by decide : cfree (socLabel ++ [':']) (pmhLabel ++ colonSp) = true), hf⟩
        · exact ⟨(by decide : cfree (socLabel ++ [':']) (shLabel ++ colonSp) = true), hf⟩
        · exact ⟨(by decide : cfree (socLabel ++ [':']) (fhLabel ++ colonSp) = true), hf⟩
      · intro q hq
        simp at hq

/-! ## Vitals codec lemmas -/

theorem lowerC_comma : lowerC ',' = ',' := by decide

theorem vitalAnchors_no_comma : ∀ a ∈ vitalAnchors, ',' ∉ a.map lowerC := by decide

theorem takeWhile_trimmed_nil {v : Str} (h : jsTrim v = v) (hne : v ≠ []) :
    v.takeWhile isWsC = [] := by
  obtain ⟨c, v', rfl⟩ := List.exists_cons_of_ne_nil hne
  rw [List.takeWhile_cons, trimmed_head_not_ws h rfl]
  simp

theorem scanVital_cons_false {pat : Str} {c : Char} {rest : Str}
    (h : icStarts pat (c :: rest) = false) :
    scanVital pat (c :: rest) = scanVital pat rest := by
  conv_lhs => unfold scanVital
  rw [h]
  simp

theorem scanVital_cfree {pat c0 : Str} (h : cfree pat c0 = true) (v : Str) :
    scanVital pat (c0 ++ v) = scanVital pat v := by
  induction c0 with
  | nil => rfl
  | cons c rest ih =>
    unfold cfree at h
    simp only [Bool.and_eq_true, Bool.not_eq_true'] at h
    have hs : icStarts pat ((c :: rest) ++ v) = false := by
      cases hx : icStarts pat ((c :: rest) ++ v)
      · rfl
      · have h1 := h.1
        have h2 := icStarts_take hx
        simp only [List.length_cons] at h1 h2
        exact absurd h2 (by simp [h1])
    rw [List.cons_append]
    rw [show scanVital pat (c :: (rest ++ v)) = scanVital pat (rest ++ v) from
      scanVital_cons_false (by rw [← List.cons_append]; exact hs)]
    exact ih h.2

theorem scanVital_append_block {pat a : Str} {b : Char} (hb1 : lowerC b = b)
    (hb2 : b ∉ pat.map lowerC) (h : icFind pat a = none) (t : Str) :
    scanVital pat (a ++ b :: t) = scanVital pat (b :: t) := by
  induction a with
  | nil => rfl
  | cons c rest ih =>
    obtain ⟨hs, hrest⟩ := icFind_none_cons h
    have hs' : icStarts pat ((c :: rest) ++ b :: t) = false :=
      icStarts_extend_blocked hb1 hb2 hs t
    rw [List.cons_append]
    rw [show scanVital pat (c :: (rest ++ b :: t)) = scanVital pat (rest ++ b :: t) from
      scanVital_cons_false (by rw [← List.cons_append]; exact hs')]
    exact ih hrest

theorem scanVital_cons_ne {c d : Char} (h : lowerC c ≠ lowerC d) (cs t : Str) :
    scanVital (c :: cs) (d :: t) = scanVital (c :: cs) t :=
  scanVital_cons_false (icStarts_head_ne h cs t)

theorem scanVital_found {pat x : Str} {r : Str} (hne : pat ≠ [])
    (hcap : vitalCapture x = some r) : scanVital pat (pat ++ x) = some r := by
  obtain ⟨p0, ps0, rfl⟩ := List.exists_cons_of_ne_nil hne
  rw [List.cons_append]
  conv_lhs => unfold scanVital
  rw [show (p0 :: (ps0 ++ x)) = (p0 :: ps0) ++ x from rfl, icStarts_refl_append]
  simp only [if_true]
  rw [show List.drop (p0 :: ps0).length ((p0 :: ps0) ++ x) = x from List.drop_left _ _]
  rw [hcap]

theorem vitalCapture_value {v r' : Str} (htrim : jsTrim v = v) (hne : v ≠ [])
    (hnc : ',' ∉ v) (hr : r' = [] ∨ ∃ t, r' = ',' :: t) :
    vitalCapture (' ' :: (v ++ r')) = some v := by
  have hws : (v ++ r').takeWhile isWsC = [] := takeWhile_trimmed_append htrim hne r'
  have hdr : (v ++ r').dropWhile isWsC = v ++ r' := dropWhile_trimmed_append htrim hne r'
  obtain ⟨c, v', rfl⟩ := List.exists_cons_of_ne_nil hne
  have hcne : (c = ',') = False := by
    simp only [eq_iff_iff, iff_false]
    intro hc
    exact hnc (hc ▸ List.mem_cons_self c v')
  unfold vitalCapture
  simp only [List.takeWhile_cons, List.dropWhile_cons,
    show isWsC ' ' = true from rfl, if_true, hws, hdr]
  show (if c = ',' then (if ([' '] : Str) = [] then none else some ([] : Str))
    else some (jsTrimR ((c :: (v' ++ r')).takeWhile (fun x => decide (x ≠ ','))))) =
    some (c :: v')
  rw [if_neg (show ¬(c = ',') from fun hc => hnc (hc ▸ List.mem_cons_self c v'))]
  congr 1
  have hall : ∀ a ∈ (c :: v'), (fun x => decide (x ≠ ',')) a = true := by
    intro a ha
    simp only [decide_eq_true_eq]
    intro he
    exact hnc (he ▸ ha)
  rw [show (c :: (v' ++ r')) = (c :: v') ++ r' from rfl,
    List.takeWhile_append_of_pos hall]
  have hrt : r'.takeWhile (fun x => decide (x ≠ ',')) = [] := by
    rcases hr with rfl | ⟨t, rfl⟩
    · rfl
    · rw [List.takeWhile_cons]
      simp
  rw [hrt, List.append_nil]
  exact trimmed_R htrim

theorem vitalChunks_cons_pos {l v : Str} {ps : List (Str × Str)}
    (hv : ¬(v = [] ∨ v = dashS)) :
    vitalChunks ((l, v) :: ps) = (l ++ colonSp ++ v) :: vitalChunks ps := by
  simp [vitalChunks, chunkOf, List.filterMap_cons, hv]

theorem vitalChunks_cons_neg {l v : Str} {ps : List (Str × Str)}
    (hv : v = [] ∨ v = dashS) :
    vitalChunks ((l, v) :: ps) = vitalChunks ps := by
  simp [vitalChunks, List.filterMap_cons, hv]

theorem scanVital_joinPre_skip {pat : Str} {p0 : Char} {ps0 : Str}
    (hp : pat = p0 :: ps0) (hcm : ',' ∉ pat.map lowerC)
    (h1 : lowerC p0 ≠ lowerC ',') (h2 : lowerC p0 ≠ lowerC ' ') :
    ∀ (ps : List (Str × Str)) (r : Str),
      (∀ q ∈ ps, ¬(q.2 = [] ∨ q.2 = dashS) →
        cfree pat (q.1 ++ colonSp) = true ∧ icFind pat q.2 = none) →
      scanVital pat (joinPre commaSp (vitalChunks ps) r) = scanVital pat r := by
  intro ps
  induction ps with
  | nil => intro r _; rfl
  | cons q ps' ih =>
    intro r hall
    obtain ⟨l, v⟩ := q
    by_cases hv : v = [] ∨ v = dashS
    · rw [vitalChunks_cons_neg hv]
      exact ih r (fun q hq => hall q (List.mem_cons_of_mem _ hq))
    · obtain ⟨hcf, hfind⟩ := hall (l, v) (List.mem_cons_self _ _) hv
      rw [vitalChunks_cons_pos hv]
      have e1 : joinPre commaSp ((l ++ colonSp ++ v) :: vitalChunks ps') r =
          (l ++ colonSp) ++ (v ++ ',' :: ' ' :: joinPre commaSp (vitalChunks ps') r) := by
        show l ++ colonSp ++ v ++ commaSp ++ joinPre commaSp (vitalChunks ps') r = _
        simp [commaSp, List.append_assoc]
      rw [e1, scanVital_cfree hcf, scanVital_append_block lowerC_comma hcm hfind]
      rw [hp, scanVital_cons_ne h1, scanVital_cons_ne h2, ← hp]
      exact ih r (fun q hq => hall q (List.mem_cons_of_mem _ hq))

theorem scanVital_join_none {pat : Str} {p0 : Char} {ps0 : Str}
    (hp : pat = p0 :: ps0) (hcm : ',' ∉ pat.map lowerC)
    (h1 : lowerC p0 ≠ lowerC ',') (h2 : lowerC p0 ≠ lowerC ' ') :
    ∀ (ps : List (Str × Str)),
      (∀ q ∈ ps, ¬(q.2 = [] ∨ q.2 = dashS) →
        cfree pat (q.1 ++ colonSp) = true ∧ icFind pat q.2 = none) →
      scanVital pat (joinSep commaSp (vitalChunks ps)) = none := by
  intro ps
  induction ps with
  | nil => intro _; rw [hp]; rfl
  | cons q ps' ih =>
    intro hall
    obtain ⟨l, v⟩ := q
    by_cases hv : v = [] ∨ v = dashS
    · rw [vitalChunks_cons_neg hv]
      exact ih (fun q hq => hall q (List.mem_cons_of_mem _ hq))
    · obtain ⟨hcf, hfind⟩ := hall (l, v) (List.mem_cons_self _ _) hv
      rw [vitalChunks_cons_pos hv]
      cases hx : vitalChunks ps' with
      | nil =>
        have e1 : joinSep commaSp [l ++ colonSp ++ v] = (l ++ colonSp) ++ v := by
          show l ++ colonSp ++ v = _
          simp [List.append_assoc]
        rw [e1, scanVital_cfree hcf]
        have hnone : ∀ s : Str, icFind pat s = none → scanVital pat s = none := by
          intro s
          induction s with
          | nil => intro _; rfl
          | cons c s' ihs =>
            intro hfs
            obtain ⟨hs1, hs2⟩ := icFind_none_cons hfs
            rw [scanVital_cons_false hs1]
            exact ihs hs2
        exact hnone v hfind
      | cons c0 cs0 =>
        have e1 : joinSep commaSp ((l ++ colonSp ++ v) :: c0 :: cs0) =
            (l ++ colonSp) ++ (v ++ ',' :: ' ' :: joinSep commaSp (c0 :: cs0)) := by
          show l ++ colonSp ++ v ++ commaSp ++ joinSep commaSp (c0 :: cs0) = _
          simp [commaSp, List.append_assoc]
        rw [e1, scanVital_cfree hcf, scanVital_append_block lowerC_comma hcm hfind]
        rw [hp, scanVital_cons_ne h1, scanVital_cons_ne h2, ← hp, ← hx]
        exact ih (fun q hq => hall q (List.mem_cons_of_mem _ hq))

theorem parseVital_found (l v : Str) (pre post : List (Str × Str)) {p0 : Char} {ps0 : Str}
    (hp : l ++ [':'] = p0 :: ps0) (hcm : ',' ∉ (l ++ [':']).map lowerC)
    (h1 : lowerC p0 ≠ lowerC ',') (h2 : lowerC p0 ≠ lowerC ' ')
    (hv : ¬(v = [] ∨ v = dashS)) (htrim : jsTrim v = v) (hnc : ',' ∉ v)
    (hpre : ∀ q ∈ pre, ¬(q.2 = [] ∨ q.2 = dashS) →
      cfree (l ++ [':']) (q.1 ++ colonSp) = true ∧ icFind (l ++ [':']) q.2 = none) :
    parseVitalField l (joinSep commaSp (vitalChunks (pre ++ (l, v) :: post))) = v := by
  have hpne : l ++ [':'] ≠ [] := by simp
  have hvne : v ≠ [] := fun he => hv (Or.inl he)
  have e0 : vitalChunks (pre ++ (l, v) :: post) =
      vitalChunks pre ++ ((l ++ colonSp ++ v) :: vitalChunks post) := by
    unfold vitalChunks
    rw [List.filterMap_append]
    congr 1
    exact (vitalChunks_cons_pos hv)
  unfold parseVitalField
  rw [e0, joinSep_decomp commaSp _ _ (by simp),
    scanVital_joinPre_skip hp hcm h1 h2 pre _ hpre]
  cases hx : vitalChunks post with
  | nil =>
    have e1 : joinSep commaSp ((l ++ colonSp ++ v) :: []) =
        (l ++ [':']) ++ (' ' :: (v ++ [])) := by
      show l ++ colonSp ++ v = _
      rw [List.append_nil]
      exact chunk_pat_assoc l v
    rw [e1, scanVital_found hpne (vitalCapture_value htrim hvne hnc (Or.inl rfl))]
    rfl
  | cons c0 cs0 =>
    have e1 : joinSep commaSp ((l ++ colonSp ++ v) :: c0 :: cs0) =
        (l ++ [':']) ++ (' ' :: (v ++ ',' :: ' ' :: joinSep commaSp (c0 :: cs0))) := by
      show l ++ colonSp ++ v ++ commaSp ++ joinSep commaSp (c0 :: cs0) = _
      simp [colonSp, commaSp, List.append_assoc]
    rw [e1, scanVital_found hpne (vitalCapture_value htrim hvne hnc (Or.inr ⟨_, rfl⟩))]
    rfl

theorem parseVital_absent (l : Str) (ps : List (Str × Str)) {p0 : Char} {ps0 : Str}
    (hp : l ++ [':'] = p0 :: ps0) (hcm : ',' ∉ (l ++ [':']).map lowerC)
    (h1 : lowerC p0 ≠ lowerC ',') (h2 : lowerC p0 ≠ lowerC ' ')
    (hall : ∀ q ∈ ps, ¬(q.2 = [] ∨ q.2 = dashS) →
      cfree (l ++ [':']) (q.1 ++ colonSp) = true ∧ icFind (l ++ [':']) q.2 = none) :
    parseVitalField l (joinSep commaSp (vitalChunks ps)) = dashS := by
  unfold parseVitalField
  rw [scanVital_join_none hp hcm h1 h2 ps hall]
  rfl

theorem vitalsOK_anchor_free {v : Vitals} (hOK : vitalsOK v) :
    ∀ pat ∈ vitalAnchors, ∀ q ∈ vitalPairs v, icFind pat q.2 = none := by
  intro pat hpat q hq
  obtain ⟨h1, h2, h3, h4⟩ := hOK
  simp only [vitalPairs, List.mem_cons, List.not_mem_nil, or_false] at hq
  rcases hq with rfl | rfl | rfl | rfl
  · exact h1.2.2 pat hpat
  · exact h2.2.2 pat hpat
  · exact h3.2.2 pat hpat
  · exact h4.2.2 pat hpat

theorem vitalPairs_decomp_height (v : Vitals) :
    vitalPairs v = [] ++ (heightLabel, v.height) ::
      [(weightLabel, v.weight), (bmiLabel, v.bmi), (bpLabel, v.bp)] := rfl

theorem vitalPairs_decomp_weight (v : Vitals) :
    vitalPairs v = [(heightLabel, v.height)] ++ (weightLabel, v.weight) ::
      [(bmiLabel, v.bmi), (bpLabel, v.bp)] := rfl

theorem vitalPairs_decomp_bmi (v : Vitals) :
    vitalPairs v = [(heightLabel, v.height), (weightLabel, v.weight)] ++
      (bmiLabel, v.bmi) :: [(bpLabel, v.bp)] := rfl

theorem vitalPairs_decomp_bp (v : Vitals) :
    vitalPairs v = [(heightLabel, v.height), (weightLabel, v.weight),
      (bmiLabel, v.bmi)] ++ (bpLabel, v.bp) :: [] := rfl

theorem parsedVitals_all (v : Vitals) (hOK : vitalsOK v) :
    parseVitalField heightLabel (vitalsText v) =
      (if v.height = [] ∨ v.height = dashS then dashS else v.height) ∧
    parseVitalField weightLabel (vitalsText v) =
      (if v.weight = [] ∨ v.weight = dashS then dashS else v.weight) ∧
    parseVitalField bmiLabel (vitalsText v) =
      (if v.bmi = [] ∨ v.bmi = dashS then dashS else v.bmi) ∧
    parseVitalField bpLabel (vitalsText v) =
      (if v.bp = [] ∨ v.bp = dashS then dashS else v.bp) := by
  have hfree := vitalsOK_anchor_free hOK
  refine ⟨?_, ?_, ?_, ?_⟩
  · by_cases hv : v.height = [] ∨ v.height = dashS
    · rw [if_pos hv]
      refine parseVital_absent heightLabel (vitalPairs v)
        (show heightLabel ++ [':'] = 'H' :: ("eight:").data from rfl)
        (by decide) (by decide) (by decide) ?_
      intro q hq hq2
      obtain ⟨ql, qv⟩ := q
      have hf := hfree (heightLabel ++ [':']) (by decide) (ql, qv) hq
      simp only [vitalPairs, List.mem_cons, List.not_mem_nil, or_false,
        Prod.mk.injEq] at hq
      rcases hq with ⟨rfl, rfl⟩ | ⟨rfl, rfl⟩ | ⟨rfl, rfl⟩ | ⟨rfl, rfl⟩
      · exact absurd hv hq2
      · exact ⟨(by decide : cfree (heightLabel ++ [':']) (weightLabel ++ colonSp) = true), hf⟩
      · exact ⟨(by decide : cfree (heightLabel ++ [':']) (bmiLabel ++ colonSp) = true), hf⟩
      · exact ⟨(by decide : cfree (heightLabel ++ [':']) (bpLabel ++ colonSp) = true), hf⟩
    · rw [if_neg hv, show vitalsText v = joinSep commaSp (vitalChunks (vitalPairs v)) from rfl,
        vitalPairs_decomp_height v]
      refine parseVital_found heightLabel v.height [] _
        (show heightLabel ++ [':'] = 'H' :: ("eight:").data from rfl)
        (by decide) (by decide) (by decide) hv hOK.1.1 hOK.1.2.1 ?_
      intro q hq
      simp at hq
  · by_cases hv : v.weight = [] ∨ v.weight = dashS
    · rw [if_pos hv]
      refine parseVital_absent weightLabel (vitalPairs v)
        (show weightLabel ++ [':'] = 'W' :: ("eight:").data from rfl)
        (by decide) (by decide) (by decide) ?_
      intro q hq hq2
      obtain ⟨ql, qv⟩ := q
      have hf := hfree (weightLabel ++ [':']) (by decide) (ql, qv) hq
      simp only [vitalPairs, List.mem_cons, List.not_mem_nil, or_false,
        Prod.mk.injEq] at hq
      rcases hq with ⟨rfl, rfl⟩ | ⟨rfl, rfl⟩ | ⟨rfl, rfl⟩ | ⟨rfl, rfl⟩
      · exact ⟨(by decide : cfree (weightLabel ++ [':']) (heightLabel ++ colonSp) = true), hf⟩
      · exact absurd hv hq2
      · exact ⟨(by decide : cfree (weightLabel ++ [':']) (bmiLabel ++ colonSp) = true), hf⟩
      · exact ⟨(by decide : cfree (weightLabel ++ [':']) (bpLabel ++ colonSp) = true), hf⟩
    · rw [if_neg hv, show vitalsText v = joinSep commaSp (vitalChunks (vitalPairs v)) from rfl,
        vitalPairs_decomp_weight v]
      refine parseVital_found weightLabel v.weight [(heightLabel, v.height)] _
        (show weightLabel ++ [':'] = 'W' :: ("eight:").data from rfl)
        (by decide) (by decide) (by decide) hv hOK.2.1.1 hOK.2.1.2.1 ?_
      intro q hq hq2
      obtain ⟨ql, qv⟩ := q
      simp only [List.mem_cons, List.not_mem_nil, or_false, Prod.mk.injEq] at hq
      obtain ⟨rfl, rfl⟩ := hq
      exact ⟨(by decide : cfree (weightLabel ++ [':']) (heightLabel ++ colonSp) = true),
        hfree (weightLabel ++ [':']) (by decide) (heightLabel, v.height)
          (by simp [vitalPairs])⟩
  · by_cases hv : v.bmi = [] ∨ v.bmi = dashS
    · rw [if_pos hv]
      refine parseVital_absent bmiLabel (vitalPairs v)
        (show bmiLabel ++ [':'] = 'B' :: ("MI:").data from rfl)
        (by decide) (by decide) (by decide) ?_
      intro q hq hq2
      obtain ⟨ql, qv⟩ := q
      have hf := hfree (bmiLabel ++ [':']) (by decide) (ql, qv) hq
      simp only [vitalPairs, List.mem_cons, List.not_mem_nil, or_false,
        Prod.mk.injEq] at hq
      rcases hq with ⟨rfl, rfl⟩ | ⟨rfl, rfl⟩ | ⟨rfl, rfl⟩ | ⟨rfl, rfl⟩
      · exact ⟨(by decide : cfree (bmiLabel ++ [':']) (heightLabel ++ colonSp) = true), hf⟩
      · exact ⟨(by decide : cfree (bmiLabel ++ [':']) (weightLabel ++ colonSp) = true), hf⟩
      · exact absurd hv hq2
      · exact ⟨(by decide : cfree (bmiLabel ++ [':']) (bpLabel ++ colonSp) = true), hf⟩
    · rw [if_neg hv, show vitalsText v = joinSep commaSp (vitalChunks (vitalPairs v)) from rfl,
        vitalPairs_decomp_bmi v]
      refine parseVital_found bmiLabel v.bmi
        [(heightLabel, v.height), (weightLabel, v.weight)] _
        (show bmiLabel ++ [':'] = 'B' :: ("MI:").data from rfl)
        (by decide) (by decide) (by decide) hv hOK.2.2.1.1 hOK.2.2.1.2.1 ?_
      intro q hq hq2
      obtain ⟨ql, qv⟩ := q
      simp only [List.mem_cons, List.not_mem_nil, or_false, Prod.mk.injEq] at hq
      rcases hq with ⟨rfl, rfl⟩ | ⟨rfl, rfl⟩
      · exact ⟨(by decide : cfree (bmiLabel ++ [':']) (heightLabel ++ colonSp) = true),
          hfree (bmiLabel ++ [':']) (by decide) (heightLabel, v.height)
            (by simp [vitalPairs])⟩
      · exact ⟨(by decide : cfree (bmiLabel ++ [':']) (weightLabel ++ colonSp) = true),
          hfree (bmiLabel ++ [':']) (by decide) (weightLabel, v.weight)
            (by simp [vitalPairs])⟩
  · by_cases hv : v.bp = [] ∨ v.bp = dashS
    · rw [if_pos hv]
      refine parseVital_absent bpLabel (vitalPairs v)
        (show bpLabel ++ [':'] = 'B' :: ("lood Pressure:").data from rfl)
        (by decide) (by decide) (by decide) ?_
      intro q hq hq2
      obtain ⟨ql, qv⟩ := q
      have hf := hfree (bpLabel ++ [':']) (by decide) (ql, qv) hq
      simp only [vitalPairs, List.mem_cons, List.not_mem_nil, or_false,
        Prod.mk.injEq] at hq
      rcases hq with ⟨rfl, rfl⟩ | ⟨rfl, rfl⟩ | ⟨rfl, rfl⟩ | ⟨rfl, rfl⟩
      · exact ⟨(by decide : cfree (bpLabel ++ [':']) (heightLabel ++ colonSp) = true), hf⟩
      · exact ⟨(by decide : cfree (bpLabel ++ [':']) (weightLabel ++ colonSp) = true), hf⟩
      · exact ⟨(by decide : cfree (bpLabel ++ [':']) (bmiLabel ++ colonSp) = true), hf⟩
      · exact absurd hv hq2
    · rw [if_neg hv, show vitalsText v = joinSep commaSp (vitalChunks (vitalPairs v)) from rfl,
        vitalPairs_decomp_bp v]
      refine parseVital_found bpLabel v.bp
        [(heightLabel, v.height), (weightLabel, v.weight), (bmiLabel, v.bmi)] _
        (show bpLabel ++ [':'] = 'B' :: ("lood Pressure:").data from rfl)
        (by decide) (by decide) (by decide) hv hOK.2.2.2.1 hOK.2.2.2.2.1 ?_
      intro q hq hq2
      obtain ⟨ql, qv⟩ := q
      simp only [List.mem_cons, List.not_mem_nil, or_false, Prod.mk.injEq] at hq
      rcases hq with ⟨rfl, rfl⟩ | ⟨rfl, rfl⟩ | ⟨rfl, rfl⟩
      · exact ⟨(by decide : cfree (bpLabel ++ [':']) (heightLabel ++ colonSp) = true),
          hfree (bpLabel ++ [':']) (by decide) (heightLabel, v.height)
            (by simp [vitalPairs])⟩
      · exact ⟨(by decide : cfree (bpLabel ++ [':']) (weightLabel ++ colonSp) = true),
          hfree (bpLabel ++ [':']) (by decide) (weightLabel, v.weight)
            (by simp [vitalPairs])⟩
      · exact ⟨(by decide : cfree (bpLabel ++ [':']) (bmiLabel ++ colonSp) = true),
          hfree (bpLabel ++ [':']) (by decide) (bmiLabel, v.bmi)
            (by simp [vitalPairs])⟩

/-! ## Diagnosis codec lemmas -/

theorem takeWhile_app_all {p : Char → Bool} {s : Str} (h : ∀ c ∈ s, p c = true)
    (r : Str) : (s ++ r).takeWhile p = s ++ r.takeWhile p := by
  induction s with
  | nil => rfl
  | cons c cs ih =>
    simp only [List.cons_append, List.takeWhile_cons,
      h c (List.mem_cons_self c cs), if_true]
    rw [ih (fun x hx => h x (List.mem_cons_of_mem c hx))]

theorem takeWhile_app_stop {p : Char → Bool} {s : Str} (h : ∀ c ∈ s, p c = true)
    {c : Char} (hc : p c = false) (r : Str) : (s ++ c :: r).takeWhile p = s := by
  rw [takeWhile_app_all h (c :: r), List.takeWhile_cons]
  simp [hc]

theorem dropWhile_app_stop {p : Char → Bool} {s : Str} (h : ∀ c ∈ s, p c = true)
    {c : Char} (hc : p c = false) (r : Str) : (s ++ c :: r).dropWhile p = c :: r := by
  induction s with
  | nil =>
    rw [List.nil_append, List.dropWhile_cons]
    simp [hc]
  | cons a as ih =>
    simp only [List.cons_append, List.dropWhile_cons,
      h a (List.mem_cons_self a as), if_true]
    exact ih (fun x hx => h x (List.mem_cons_of_mem a hx))

theorem takeWhile_mem {p : Char → Bool} {l : Str} :
    ∀ c ∈ l.takeWhile p, p c = true := by
  induction l with
  | nil => intro c hc; simp at hc
  | cons a as ih =>
    intro c hc
    rw [List.takeWhile_cons] at hc
    by_cases ha : p a = true
    · rw [if_pos ha] at hc
      rcases List.mem_cons.mp hc with rfl | hc'
      · exact ha
      · exact ih c hc'
    · rw [if_neg ha] at hc
      simp at hc

theorem dropWhile_head_false {p : Char → Bool} {l : Str} {c : Char} {t : Str}
    (h : l.dropWhile p = c :: t) : p c = false := by
  induction l with
  | nil => simp at h
  | cons a as ih =>
    rw [List.dropWhile_cons] at h
    by_cases ha : p a = true
    · rw [if_pos ha] at h
      exact ih h
    · rw [if_neg ha] at h
      obtain ⟨rfl, -⟩ := List.cons.inj h
      simpa using ha

theorem digitC_isDigit {n : Nat} (h : n < 10) : (digitC n).isDigit = true := by
  interval_cases n <;> decide

theorem natStrCore_digits : ∀ fuel n, ∀ c ∈ natStrCore fuel n, c.isDigit = true := by
  intro fuel
  induction fuel with
  | zero => intro n c hc; simp [natStrCore] at hc
  | succ f ih =>
    intro n c hc
    simp only [natStrCore] at hc
    by_cases hn : n < 10
    · rw [if_pos hn] at hc
      rw [List.mem_singleton] at hc
      subst hc
      exact digitC_isDigit hn
    · rw [if_neg hn] at hc
      rcases List.mem_append.mp hc with h1 | h2
      · exact ih _ c h1
      · rw [List.mem_singleton] at h2
        subst h2
        exact digitC_isDigit (Nat.mod_lt _ (by omega))

theorem natStr_digits (n : Nat) : ∀ c ∈ natStr n, c.isDigit = true :=
  natStrCore_digits (n + 1) n

theorem natStr_ne_nil (n : Nat) : natStr n ≠ [] := by
  show natStrCore (n + 1) n ≠ []
  simp only [natStrCore]
  by_cases hn : n < 10 <;> simp [hn]

theorem numDotWs_head_nondigit {c : Char} (hc : c.isDigit = false) (r : Str) :
    numDotWs (c :: r) = none := by
  simp [numDotWs, List.takeWhile_cons, hc]

theorem noDelimLocal_head {v : Str} (h : noDelimLocal v = true) :
    numDotWs v = none := by
  cases v with
  | nil => rfl
  | cons c r =>
    simp only [noDelimLocal, Bool.and_eq_true, Option.isNone_iff_eq_none] at h
    exact h.1

theorem noDelimLocal_tail {c : Char} {r : Str} (h : noDelimLocal (c :: r) = true) :
    noDelimLocal r = true := by
  simp only [noDelimLocal, Bool.and_eq_true] at h
  exact h.2

theorem noDelimLocal_drop : ∀ (v : Str), noDelimLocal v = true →
    ∀ p, noDelimLocal (v.drop p) = true := by
  intro v
  induction v with
  | nil =>
    intro h p
    rw [List.drop_nil]
    exact h
  | cons c r ih =>
    intro h p
    cases p with
    | zero => exact h
    | succ q =>
      rw [List.drop_succ_cons]
      exact ih (noDelimLocal_tail h) q

theorem endsDigitsDot_eq {v : Str} {d : Char} {t : Str}
    (h : v.reverse = '.' :: d :: t) : endsDigitsDot v = d.isDigit := by
  unfold endsDigitsDot
  rw [h]
  rfl

theorem endsDigitsDot_append (u dg : Str) (hne : dg ≠ [])
    (hd : ∀ c ∈ dg, c.isDigit = true) :
    endsDigitsDot (u ++ dg ++ ['.']) = true := by
  cases hrev : dg.reverse with
  | nil => exact absurd (by simpa using congrArg List.reverse hrev) hne
  | cons d rest =>
    have hdm : d ∈ dg := List.mem_reverse.mp (by
      rw [hrev]
      exact List.mem_cons_self d rest)
    have hrv : (u ++ dg ++ ['.']).reverse = '.' :: d :: (rest ++ u.reverse) := by
      rw [List.reverse_append, List.reverse_append, hrev]
      rfl
    rw [endsDigitsDot_eq hrv]
    exact hd d hdm

theorem noDelimSeg_of_local {v r : Str} (hl : noDelimLocal v = true)
    (he : endsDigitsDot v = false)
    (hr : r = [] ∨ ∃ t, r = '\n' :: t) : noDelimSeg v r := by
  intro p hp
  have hns : numDotWs (v.drop p) = none := noDelimLocal_head (noDelimLocal_drop v hl p)
  have hsne : v.drop p ≠ [] := by
    intro h0
    have := congrArg List.length h0
    simp at this
    omega
  obtain ⟨dg, hdgE⟩ : ∃ w, w = (v.drop p).takeWhile Char.isDigit := ⟨_, rfl⟩
  have hsplit : dg ++ (v.drop p).dropWhile Char.isDigit = v.drop p := by
    rw [hdgE]
    exact List.takeWhile_append_dropWhile _ _
  have hall : ∀ c ∈ dg, Char.isDigit c = true := by
    rw [hdgE]
    exact takeWhile_mem
  cases hxr : (v.drop p).dropWhile Char.isDigit with
  | nil =>
    have hsd : v.drop p = dg := by
      rw [← hsplit, hxr, List.append_nil]
    have hallS : ∀ c ∈ v.drop p, Char.isDigit c = true := by
      rw [hsd]
      exact hall
    rcases hr with rfl | ⟨t, rfl⟩
    · rw [List.append_nil]
      exact hns
    · have h1 : (v.drop p ++ '\n' :: t).takeWhile Char.isDigit = v.drop p :=
        takeWhile_app_stop hallS (by decide) t
      simp only [numDotWs, h1]
      rw [if_neg hsne, List.drop_left]
      split
      · rename_i r2 heq
        exact absurd (List.cons.inj heq).1 (by decide)
      · rfl
  | cons x rest' =>
    have hx : Char.isDigit x = false := dropWhile_head_false hxr
    have hsx : v.drop p = dg ++ x :: rest' := by
      rw [← hsplit, hxr]
    by_cases hdg : dg = []
    · have hsx' : v.drop p = x :: rest' := by
        rw [hsx, hdg, List.nil_append]
      rw [hsx', List.cons_append]
      exact numDotWs_head_nondigit hx _
    · by_cases hdot : x = '.'
      · subst hdot
        have hw : rest'.takeWhile isWsC = [] := by
          rw [hsx] at hns
          have h1 : (dg ++ '.' :: rest').takeWhile Char.isDigit = dg :=
            takeWhile_app_stop hall (by decide) rest'
          simp only [numDotWs, h1] at hns
          rw [if_neg hdg, List.drop_left] at hns
          by_cases hw : rest'.takeWhile isWsC = []
          · exact hw
          · exfalso
            have hns' : (if rest'.takeWhile isWsC = [] then none
                else some (dg.length + 1 +
                  (rest'.takeWhile isWsC).length)) = (none : Option Nat) := hns
            rw [if_neg hw] at hns'
            simp at hns'
        cases hre : rest' with
        | nil =>
          exfalso
          have hv : v = v.take p ++ (dg ++ ['.']) := by
            conv_lhs => rw [← List.take_append_drop p v]
            rw [hsx, hre]
          rw [hv, ← List.append_assoc,
            endsDigitsDot_append (v.take p) dg hdg hall] at he
          simp at he
        | cons y t' =>
          have hy : isWsC y = false := by
            rw [hre, List.takeWhile_cons] at hw
            by_cases hyy : isWsC y = true
            · rw [if_pos hyy] at hw
              simp at hw
            · simpa using hyy
          have h1 : (v.drop p ++ r).takeWhile Char.isDigit = dg := by
            rw [hsx, List.append_assoc]
            exact takeWhile_app_stop hall (by decide) _
          simp only [numDotWs, h1]
          rw [if_neg hdg]
          have h2 : (v.drop p ++ r).drop dg.length = '.' :: (y :: (t' ++ r)) := by
            rw [hsx, hre, List.append_assoc]
            exact List.drop_left dg (('.' :: y :: t') ++ r)
          rw [h2]
          show (if (y :: (t' ++ r)).takeWhile isWsC = [] then none
            else some (dg.length + 1 +
              ((y :: (t' ++ r)).takeWhile isWsC).length)) = none
          rw [List.takeWhile_cons, hy]
          simp
      · have h1 : (v.drop p ++ r).takeWhile Char.isDigit = dg := by
          rw [hsx, List.append_assoc]
          exact takeWhile_app_stop hall hx _
        simp only [numDotWs, h1]
        rw [if_neg hdg]
        have h2 : (v.drop p ++ r).drop dg.length = x :: (rest' ++ r) := by
          rw [hsx, List.append_assoc]
          exact List.drop_left dg ((x :: rest') ++ r)
        rw [h2]
        split
        · rename_i r2 heq
          exact absurd (List.cons.inj heq).1 hdot
        · rfl

theorem noDelimSeg_append {a b r : Str} (ha : noDelimSeg a (b ++ r))
    (hb : noDelimSeg b r) : noDelimSeg (a ++ b) r := by
  intro p hp
  by_cases h1 : p < a.length
  · have he : (a ++ b).drop p ++ r = a.drop p ++ (b ++ r) := by
      rw [List.drop_append_of_le_length (Nat.le_of_lt h1), List.append_assoc]
    rw [he]
    exact ha p h1
  · push_neg at h1
    have hplen : p - a.length < b.length := by
      rw [List.length_append] at hp
      omega
    have he : (a ++ b).drop p = b.drop (p - a.length) := by
      rw [show p = a.length + (p - a.length) from by omega]
      rw [List.drop_append]
      congr 1
      omega
    rw [he]
    exact hb (p - a.length) hplen

theorem noDelimSeg_noDigits {c : Str} (h : ∀ x ∈ c, x.isDigit = false) (r : Str) :
    noDelimSeg c r := by
  intro p hp
  cases hd : c.drop p with
  | nil =>
    have := congrArg List.length hd
    simp at this
    omega
  | cons x t =>
    have hx : x ∈ c := List.mem_of_mem_drop (by
      rw [hd]
      exact List.mem_cons_self x t)
    rw [List.cons_append]
    exact numDotWs_head_nondigit (h x hx) _

theorem splitNumGo_walk : ∀ {C R : Str}, noDelimSeg C R → ∀ fuel acc,
    splitNumGo (C.length + fuel) (C ++ R) acc = splitNumGo fuel R (C.reverse ++ acc) := by
  intro C
  induction C with
  | nil =>
    intro R _ fuel acc
    simp
  | cons c C' ih =>
    intro R h fuel acc
    have h0 : numDotWs (c :: (C' ++ R)) = none := by
      have := h 0 (by simp)
      simpa using this
    have hshift : noDelimSeg C' R := by
      intro p hp
      have := h (p + 1) (by simpa using Nat.succ_lt_succ hp)
      rw [List.drop_succ_cons] at this
      exact this
    rw [List.cons_append, show (c :: C').length + fuel = (C'.length + fuel) + 1 from by
      simp [Nat.add_right_comm]]
    simp only [splitNumGo, h0]
    rw [ih hshift fuel (c :: acc)]
    simp

theorem numDotWs_entry (n : Nat) {body : Str}
    (hb : body = [] ∨ ∃ c t, body = c :: t ∧ isWsC c = false) :
    numDotWs (natStr n ++ '.' :: ' ' :: body) = some ((natStr n).length + 1 + 1) := by
  have hall : ∀ c ∈ natStr n, Char.isDigit c = true := natStr_digits n
  have h1 : (natStr n ++ '.' :: ' ' :: body).takeWhile Char.isDigit = natStr n :=
    takeWhile_app_stop hall (by decide) _
  simp only [numDotWs, h1]
  rw [if_neg (natStr_ne_nil n), List.drop_left]
  show (if (' ' :: body).takeWhile isWsC = [] then none
    else some ((natStr n).length + 1 + ((' ' :: body).takeWhile isWsC).length)) = _
  have hw : (' ' :: body).takeWhile isWsC = [' '] := by
    rw [List.takeWhile_cons]
    rcases hb with rfl | ⟨c, t, rfl, hc⟩
    · simp [show isWsC ' ' = true from by decide]
    · rw [List.takeWhile_cons, hc]
      simp [show isWsC ' ' = true from by decide]
  rw [hw]
  simp

theorem splitNumGo_nil (fuel : Nat) (acc : Str) :
    splitNumGo fuel [] acc = [acc.reverse] := by
  cases fuel <;> rfl

theorem splitNumGo_cons_some {s : Str} {m : Nat} (h : numDotWs s = some m)
    (hne : s ≠ []) (fuel : Nat) (acc : Str) :
    splitNumGo (fuel + 1) s acc = acc.reverse :: splitNumGo fuel (s.drop m) [] := by
  obtain ⟨c, t, rfl⟩ := List.exists_cons_of_ne_nil hne
  simp only [splitNumGo]
  rw [h]

theorem drop_entry (n : Nat) (X : Str) :
    (natStr n ++ '.' :: ' ' :: X).drop ((natStr n).length + 1 + 1) = X := by
  rw [show natStr n ++ '.' :: ' ' :: X = (natStr n ++ ['.', ' ']) ++ X from by
      rw [List.append_assoc]
      rfl]
  rw [show (natStr n).length + 1 + 1 = (natStr n ++ ['.', ' ']).length from by simp]
  exact List.drop_left _ _

theorem diagEntryText_eq (n : Nat) (d : Diagnosis) :
    diagEntryText n d = natStr n ++ '.' :: ' ' :: bodyOf d := by
  unfold diagEntryText bodyOf
  rw [List.append_assoc]
  rfl

theorem bodyOf_head {d : Diagnosis} (hn : jsTrim d.diagnosis_name = d.diagnosis_name)
    (hne : d.diagnosis_name ≠ []) (x : Str) :
    ∃ c t, bodyOf d ++ x = c :: t ∧ isWsC c = false := by
  obtain ⟨c, t0, hct⟩ := List.exists_cons_of_ne_nil hne
  refine ⟨c, (t0 ++ (if d.treatment = [] then [] else treatPrefix ++ d.treatment)) ++ x,
    ?_, trimmed_head_not_ws hn hct⟩
  unfold bodyOf
  rw [hct]
  rfl

theorem bodyOf_head0 {d : Diagnosis} (hn : jsTrim d.diagnosis_name = d.diagnosis_name)
    (hne : d.diagnosis_name ≠ []) :
    ∃ c t, bodyOf d = c :: t ∧ isWsC c = false := by
  obtain ⟨c, t, h, hc⟩ := bodyOf_head hn hne []
  exact ⟨c, t, by rw [← h, List.append_nil], hc⟩

theorem noDelimSeg_bodyR {d : Diagnosis} (hn : diagValOK d.diagnosis_name)
    (ht : diagValOK d.treatment) {R : Str} (hR : R = [] ∨ ∃ t, R = '\n' :: t) :
    noDelimSeg (bodyOf d) R := by
  by_cases htr : d.treatment = []
  · have hb : bodyOf d = d.diagnosis_name := by
      unfold bodyOf
      rw [if_pos htr, List.append_nil]
    rw [hb]
    exact noDelimSeg_of_local hn.2.2.1 hn.2.2.2 hR
  · have hb : bodyOf d = d.diagnosis_name ++ (treatPrefix ++ d.treatment) := by
      unfold bodyOf
      rw [if_neg htr]
    rw [hb]
    have seg3 : noDelimSeg d.treatment R :=
      noDelimSeg_of_local ht.2.2.1 ht.2.2.2 hR
    have seg2 : noDelimSeg treatPrefix (d.treatment ++ R) :=
      noDelimSeg_noDigits (by decide) _
    have seg1 : noDelimSeg d.diagnosis_name ((treatPrefix ++ d.treatment) ++ R) :=
      noDelimSeg_of_local hn.2.2.1 hn.2.2.2 (Or.inr ⟨_, rfl⟩)
    exact noDelimSeg_append seg1 (noDelimSeg_append seg2 seg3)

theorem splitNumGo_render : ∀ (kept : List Diagnosis), kept ≠ [] →
    (∀ d ∈ kept, diagValOK d.diagnosis_name ∧ diagValOK d.treatment ∧
      d.diagnosis_name ≠ []) →
    ∀ (n : Nat) (fuel : Nat) (acc : Str),
      (joinSep nl2 (renderFrom n kept)).length + 1 ≤ fuel →
      splitNumGo fuel (joinSep nl2 (renderFrom n kept)) acc =
        acc.reverse :: bodyPieces kept := by
  intro kept
  induction kept with
  | nil => intro h; exact absurd rfl h
  | cons d ds ih =>
    intro _ hOK n fuel acc hfuel
    obtain ⟨hn, ht, hne⟩ := hOK d (List.mem_cons_self d ds)
    cases ds with
    | nil =>
      have htext : joinSep nl2 (renderFrom n [d]) = natStr n ++ '.' :: ' ' :: bodyOf d := by
        show diagEntryText n d = _
        exact diagEntryText_eq n d
      rw [htext] at hfuel ⊢
      obtain ⟨f, rfl⟩ : ∃ f, fuel = f + 1 := ⟨fuel - 1, by omega⟩
      have hhead : numDotWs (natStr n ++ '.' :: ' ' :: bodyOf d) =
          some ((natStr n).length + 1 + 1) :=
        numDotWs_entry n (Or.inr (bodyOf_head0 hn.1 hne))
      rw [splitNumGo_cons_some hhead (by simp [natStr_ne_nil n]) f acc, drop_entry]
      simp only [List.length_append, List.length_cons] at hfuel
      obtain ⟨f2, rfl⟩ : ∃ f2, f = (bodyOf d).length + f2 :=
        ⟨f - (bodyOf d).length, by omega⟩
      have hwalk := splitNumGo_walk (noDelimSeg_bodyR hn ht (Or.inl rfl)) f2 ([] : Str)
      rw [List.append_nil, List.append_nil] at hwalk
      rw [hwalk, splitNumGo_nil]
      simp [bodyPieces]
    | cons d2 ds2 =>
      have htext : joinSep nl2 (renderFrom n (d :: d2 :: ds2)) =
          natStr n ++ '.' :: ' ' ::
            (bodyOf d ++ (nl2 ++ joinSep nl2 (renderFrom (n + 1) (d2 :: ds2)))) := by
        show diagEntryText n d ++ nl2 ++ joinSep nl2 (renderFrom (n + 1) (d2 :: ds2)) = _
        rw [diagEntryText_eq, List.append_assoc, List.append_assoc]
        rfl
      rw [htext] at hfuel ⊢
      obtain ⟨f, rfl⟩ : ∃ f, fuel = f + 1 := ⟨fuel - 1, by omega⟩
      have hhead : numDotWs (natStr n ++ '.' :: ' ' ::
          (bodyOf d ++ (nl2 ++ joinSep nl2 (renderFrom (n + 1) (d2 :: ds2))))) =
          some ((natStr n).length + 1 + 1) :=
        numDotWs_entry n (Or.inr (bodyOf_head hn.1 hne _))
      rw [splitNumGo_cons_some hhead (by simp [natStr_ne_nil n]) f acc, drop_entry]
      have hnl2len : nl2.length = 2 := rfl
      simp only [List.length_append, List.length_cons] at hfuel
      obtain ⟨f2, rfl, hrest⟩ : ∃ f2, f = (bodyOf d).length + (nl2.length + f2) ∧
          (joinSep nl2 (renderFrom (n + 1) (d2 :: ds2))).length + 1 ≤ f2 :=
        ⟨f - (bodyOf d).length - nl2.length, by omega, by omega⟩
      have hseg1 : noDelimSeg (bodyOf d)
          (nl2 ++ joinSep nl2 (renderFrom (n + 1) (d2 :: ds2))) :=
        noDelimSeg_bodyR hn ht (Or.inr ⟨_, rfl⟩)
      have hseg2 : noDelimSeg nl2 (joinSep nl2 (renderFrom (n + 1) (d2 :: ds2))) :=
        noDelimSeg_noDigits (by decide) _
      rw [splitNumGo_walk hseg1 (nl2.length + f2) [],
        splitNumGo_walk hseg2 f2 _,
        ih (by simp) (fun x hx => hOK x (List.mem_cons_of_mem d hx)) (n + 1) f2 _ hrest]
      simp [bodyPieces]

theorem splitNum_diagText (kept : List Diagnosis) (hne : kept ≠ [])
    (hOK : ∀ d ∈ kept, diagValOK d.diagnosis_name ∧ diagValOK d.treatment ∧
      d.diagnosis_name ≠ []) :
    splitNum (joinSep nl2 (renderFrom 1 kept)) = [] :: bodyPieces kept := by
  unfold splitNum
  rw [splitNumGo_render kept hne hOK 1 _ [] (Nat.le_refl _)]
  rfl

theorem treatMatchLen_cons_nl (rest : Str) :
    treatMatchLen ('\n' :: rest) =
      (if icStarts treatColon (rest.dropWhile isWsC) then
        some (1 + (rest.takeWhile isWsC).length + treatColon.length +
          (((rest.dropWhile isWsC).drop treatColon.length).takeWhile isWsC).length)
      else none) := rfl

theorem treatMatchLen_nonnl {c : Char} (hc : c ≠ '\n') (r : Str) :
    treatMatchLen (c :: r) = none := by
  unfold treatMatchLen
  split
  · rename_i rest heq
    exact absurd (List.cons.inj heq).1 hc
  · rfl

theorem treatSeg_append {a b r : Str} (ha : treatSeg a (b ++ r))
    (hb : treatSeg b r) : treatSeg (a ++ b) r := by
  intro p hp
  by_cases h1 : p < a.length
  · have he : (a ++ b).drop p ++ r = a.drop p ++ (b ++ r) := by
      rw [List.drop_append_of_le_length (Nat.le_of_lt h1), List.append_assoc]
    rw [he]
    exact ha p h1
  · push_neg at h1
    have hplen : p - a.length < b.length := by
      rw [List.length_append] at hp
      omega
    have he : (a ++ b).drop p = b.drop (p - a.length) := by
      rw [show p = a.length + (p - a.length) from by omega]
      rw [List.drop_append]
      congr 1
      omega
    rw [he]
    exact hb (p - a.length) hplen

theorem icFind_none_append_right {pat u s : Str} (h : icFind pat (u ++ s) = none) :
    icFind pat s = none := by
  induction u with
  | nil => exact h
  | cons c cs ih => exact ih (icFind_none_cons h).2

theorem icFind_none_suffix {pat a s : Str} (hp : pat ≠ []) (h : icFind pat a = none)
    (hs : s <:+ a) : icStarts pat s = false := by
  obtain ⟨u, rfl⟩ := hs
  simpa using icFind_none_starts hp (icFind_none_append_right h) 0

theorem all_of_dropWhile_nil {p : Char → Bool} {l : Str} (h : l.dropWhile p = []) :
    ∀ c ∈ l, p c = true := by
  have hsp : l.takeWhile p ++ l.dropWhile p = l := List.takeWhile_append_dropWhile _ _
  rw [h, List.append_nil] at hsp
  rw [← hsp]
  exact takeWhile_mem

theorem suffix_not_all_ws {v s : Str} (htrim : jsTrim v = v) (hvne : v ≠ [])
    (hs : s <:+ v) (hsne : s ≠ []) : ¬(∀ c ∈ s, isWsC c = true) := by
  intro hall
  obtain ⟨u, rfl⟩ := hs
  cases hrev : s.reverse with
  | nil => exact hsne (by simpa using congrArg List.reverse hrev)
  | cons c0 t0 =>
    have hc0 : c0 ∈ s := List.mem_reverse.mp (by
      rw [hrev]
      exact List.mem_cons_self _ _)
    have hvrev : (u ++ s).reverse = c0 :: (t0 ++ u.reverse) := by
      rw [List.reverse_append, hrev]
      rfl
    have hws := trimmed_rev_head_not_ws htrim hvrev
    rw [hall c0 hc0] at hws
    cases hws

theorem treatSeg_value {v R : Str} (hfind : icFind treatColon v = none)
    (htrim : jsTrim v = v) (hR : R = [] ∨ ∃ t, R = '\n' :: t) : treatSeg v R := by
  intro p hp
  have hvne : v ≠ [] := by
    intro h0
    rw [h0] at hp
    simp at hp
  cases hd : v.drop p with
  | nil =>
    have := congrArg List.length hd
    simp at this
    omega
  | cons c s' =>
    by_cases hc : c = '\n'
    · subst hc
      have hsfx : '\n' :: s' <:+ v := hd ▸ List.drop_suffix p v
      have hs'sfx : s' <:+ v := by
        obtain ⟨u, hu⟩ := hsfx
        refine ⟨u ++ ['\n'], ?_⟩
        rw [List.append_assoc]
        exact hu
      have hs'ne : s' ≠ [] := by
        intro h0
        subst h0
        refine suffix_not_all_ws htrim hvne hsfx (by simp) ?_
        intro x hx
        rw [List.mem_singleton] at hx
        subst hx
        decide
      cases hxz : s'.dropWhile isWsC with
      | nil =>
        exact absurd (all_of_dropWhile_nil hxz)
          (suffix_not_all_ws htrim hvne hs'sfx hs'ne)
      | cons x z =>
        have hx : isWsC x = false := dropWhile_head_false hxz
        have hsplit : s'.takeWhile isWsC ++ x :: z = s' := by
          rw [← hxz]
          exact List.takeWhile_append_dropWhile _ _
        have hwall : ∀ c ∈ s'.takeWhile isWsC, isWsC c = true := takeWhile_mem
        have hxzsfx : x :: z <:+ v := by
          obtain ⟨u, hu⟩ := hs'sfx
          refine ⟨u ++ s'.takeWhile isWsC, ?_⟩
          rw [List.append_assoc, hsplit]
          exact hu
        rw [List.cons_append, treatMatchLen_cons_nl]
        have hdw : (s' ++ R).dropWhile isWsC = x :: (z ++ R) := by
          conv_lhs => rw [← hsplit]
          rw [List.append_assoc]
          exact dropWhile_app_stop hwall hx _
        rw [hdw]
        have hstart : icStarts treatColon (x :: (z ++ R)) = false := by
          have hin : icStarts treatColon (x :: z) = false :=
            icFind_none_suffix (by decide) hfind hxzsfx
          rcases hR with rfl | ⟨t, rfl⟩
          · simpa using hin
          · simpa using icStarts_extend_blocked lowerC_nl (by decide) hin t
        rw [hstart]
        simp
    · rw [List.cons_append]
      exact treatMatchLen_nonnl hc _

theorem splitTreatGo_nil (fuel : Nat) (acc : Str) :
    splitTreatGo fuel [] acc = [acc.reverse] := by
  cases fuel <;> rfl

theorem splitTreatGo_cons_some {s : Str} {m : Nat} (h : treatMatchLen s = some m)
    (hne : s ≠ []) (fuel : Nat) (acc : Str) :
    splitTreatGo (fuel + 1) s acc = acc.reverse :: splitTreatGo fuel (s.drop m) [] := by
  obtain ⟨c, t, rfl⟩ := List.exists_cons_of_ne_nil hne
  simp only [splitTreatGo]
  rw [h]

theorem splitTreatGo_walk : ∀ {C R : Str}, treatSeg C R → ∀ fuel acc,
    splitTreatGo (C.length + fuel) (C ++ R) acc =
      splitTreatGo fuel R (C.reverse ++ acc) := by
  intro C
  induction C with
  | nil =>
    intro R _ fuel acc
    simp
  | cons c C' ih =>
    intro R h fuel acc
    have h0 : treatMatchLen (c :: (C' ++ R)) = none := by
      have := h 0 (by simp)
      simpa using this
    have hshift : treatSeg C' R := by
      intro p hp
      have := h (p + 1) (by simpa using Nat.succ_lt_succ hp)
      rw [List.drop_succ_cons] at this
      exact this
    rw [List.cons_append, show (c :: C').length + fuel = (C'.length + fuel) + 1 from by
      simp [Nat.add_right_comm]]
    simp only [splitTreatGo, h0]
    rw [ih hshift fuel (c :: acc)]
    simp

theorem treatSeg_nl2 : treatSeg nl2 [] := by
  intro p hp
  rw [List.append_nil]
  have hplt : p < 2 := by simpa [nl2] using hp
  interval_cases p <;> decide

theorem treatMatchLen_at {tr : Str} (hhd : ∃ c t, tr = c :: t ∧ isWsC c = false)
    (rr : Str) : treatMatchLen (treatPrefix ++ (tr ++ rr)) = some treatPrefix.length := by
  obtain ⟨c, t, rfl, hc⟩ := hhd
  have key : treatPrefix ++ ((c :: t) ++ rr) =
      '\n' :: (("   Treatment: ").data ++ ((c :: t) ++ rr)) := rfl
  rw [key, treatMatchLen_cons_nl]
  have hsp : ∀ x ∈ ("   ").data, isWsC x = true := by decide
  have hdeco : ("   Treatment: ").data ++ ((c :: t) ++ rr) =
      ("   ").data ++ 'T' :: (("reatment: ").data ++ ((c :: t) ++ rr)) := rfl
  rw [hdeco, takeWhile_app_stop hsp (by decide) _, dropWhile_app_stop hsp (by decide) _]
  have hst : 'T' :: (("reatment: ").data ++ ((c :: t) ++ rr)) =
      treatColon ++ (' ' :: ((c :: t) ++ rr)) := rfl
  rw [hst, icStarts_refl_append, if_pos rfl, List.drop_left]
  have hwsp : (' ' :: ((c :: t) ++ rr)).takeWhile isWsC = [' '] := by
    rw [List.takeWhile_cons]
    simp only [show isWsC ' ' = true from by decide, if_true, List.cons_append,
      List.takeWhile_cons, hc]
    simp
  rw [hwsp]
  rfl

theorem splitTreat_noMatch {v : Str} (hfind : icFind treatColon v = none)
    (htrim : jsTrim v = v) (tail : Str) (htail : tail = [] ∨ tail = nl2) :
    splitTreat (v ++ tail) = [v ++ tail] := by
  unfold splitTreat
  have hsegv : treatSeg v (tail ++ []) := by
    refine treatSeg_value hfind htrim ?_
    rcases htail with rfl | rfl
    · exact Or.inl rfl
    · exact Or.inr ⟨_, rfl⟩
  have hsegt : treatSeg tail [] := by
    rcases htail with rfl | rfl
    · intro p hp
      simp at hp
    · exact treatSeg_nl2
  have hseg : treatSeg (v ++ tail) [] := treatSeg_append hsegv hsegt
  have hwalk := splitTreatGo_walk hseg 1 ([] : Str)
  rw [List.append_nil, List.append_nil] at hwalk
  rw [hwalk, splitTreatGo_nil]
  simp

theorem splitTreat_withTreat {nm tr : Str} (hnm : diagValOK nm) (htr : diagValOK tr)
    (htrne : tr ≠ []) (tail : Str) (htail : tail = [] ∨ tail = nl2) :
    splitTreat (nm ++ (treatPrefix ++ (tr ++ tail))) = [nm, tr ++ tail] := by
  unfold splitTreat
  obtain ⟨c, t, hct⟩ := List.exists_cons_of_ne_nil htrne
  have hhd : ∃ c' t', tr = c' :: t' ∧ isWsC c' = false :=
    ⟨c, t, hct, trimmed_head_not_ws htr.1 hct⟩
  have hsegnm : treatSeg nm (treatPrefix ++ (tr ++ tail)) :=
    treatSeg_value hnm.2.1 hnm.1 (Or.inr ⟨_, rfl⟩)
  have h15 : treatPrefix.length = 15 := rfl
  have hPne : treatPrefix ++ (tr ++ tail) ≠ [] := by
    intro h0
    have := congrArg List.length h0
    simp only [List.length_append, h15, List.length_nil] at this
    omega
  rw [show (nm ++ (treatPrefix ++ (tr ++ tail))).length + 1 =
      nm.length + (((tr ++ tail).length + treatPrefix.length) + 1) from by
    simp only [List.length_append]
    omega]
  rw [splitTreatGo_walk hsegnm (((tr ++ tail).length + treatPrefix.length) + 1) []]
  rw [splitTreatGo_cons_some (treatMatchLen_at hhd tail) hPne _ _]
  rw [List.drop_left]
  have hsegtr : treatSeg tr (tail ++ []) := by
    refine treatSeg_value htr.2.1 htr.1 ?_
    rcases htail with rfl | rfl
    · exact Or.inl rfl
    · exact Or.inr ⟨_, rfl⟩
  have hsegtl : treatSeg tail [] := by
    rcases htail with rfl | rfl
    · intro p hp
      simp at hp
    · exact treatSeg_nl2
  have hwalk2 := splitTreatGo_walk (treatSeg_append hsegtr hsegtl) treatPrefix.length
    ([] : Str)
  rw [List.append_nil, List.append_nil] at hwalk2
  rw [hwalk2, splitTreatGo_nil]
  simp

theorem parseDiagEntry_body {d : Diagnosis} (hn : diagValOK d.diagnosis_name)
    (ht : diagValOK d.treatment) (hne : d.diagnosis_name ≠ [])
    (tail : Str) (htail : tail = [] ∨ tail = nl2) :
    parseDiagEntry (bodyOf d ++ tail) = d := by
  obtain ⟨nm, tr⟩ := d
  by_cases htr : tr = []
  · subst htr
    have hb : bodyOf ⟨nm, []⟩ ++ tail = nm ++ tail := by
      simp [bodyOf]
    rw [hb]
    unfold parseDiagEntry
    rw [splitTreat_noMatch hn.2.1 hn.1 tail htail]
    show ({ diagnosis_name := jsTrim (nm ++ tail),
            treatment := jsTrim (joinSep [' '] []) } : Diagnosis) = ⟨nm, []⟩
    have hjt : jsTrim (nm ++ tail) = nm := by
      rcases htail with rfl | rfl
      · rw [List.append_nil]
        exact hn.1
      · exact jsTrim_trimmed_append_ws hn.1 hne nl2_ws
    rw [hjt]
    rfl
  · have hb : bodyOf ⟨nm, tr⟩ ++ tail = nm ++ (treatPrefix ++ (tr ++ tail)) := by
      simp [bodyOf, htr, List.append_assoc]
    rw [hb]
    unfold parseDiagEntry
    rw [splitTreat_withTreat hn ht htr tail htail]
    show ({ diagnosis_name := jsTrim nm,
            treatment := jsTrim (joinSep [' '] [tr ++ tail]) } : Diagnosis) = ⟨nm, tr⟩
    have hjt : jsTrim (joinSep [' '] [tr ++ tail]) = tr := by
      show jsTrim (tr ++ tail) = tr
      rcases htail with rfl | rfl
      · rw [List.append_nil]
        exact ht.1
      · exact jsTrim_trimmed_append_ws ht.1 htr nl2_ws
    rw [hn.1, hjt]

theorem bodyPieces_ne_nil : ∀ (kept : List Diagnosis),
    (∀ d ∈ kept, d.diagnosis_name ≠ []) → ∀ x ∈ bodyPieces kept, x ≠ [] := by
  intro kept
  induction kept with
  | nil =>
    intro _ x hx
    simp [bodyPieces] at hx
  | cons d ds ih =>
    intro hOK x hx
    cases ds with
    | nil =>
      simp only [bodyPieces, List.mem_singleton] at hx
      subst hx
      intro h0
      unfold bodyOf at h0
      exact hOK d (List.mem_cons_self _ _) (List.append_eq_nil.mp h0).1
    | cons d2 ds2 =>
      simp only [bodyPieces] at hx
      rcases List.mem_cons.mp hx with rfl | hx'
      · intro h0
        rcases List.append_eq_nil.mp h0 with ⟨-, h2⟩
        simp [nl2] at h2
      · exact ih (fun q hq => hOK q (List.mem_cons_of_mem d hq)) x hx'

theorem filter_ne_nil_all {xs : List Str} (h : ∀ x ∈ xs, x ≠ []) :
    xs.filter (fun e => e ≠ []) = xs := by
  refine List.filter_eq_self.mpr ?_
  intro a ha
  simpa using h a ha

theorem map_parse_bodyPieces : ∀ (kept : List Diagnosis),
    (∀ d ∈ kept, diagValOK d.diagnosis_name ∧ diagValOK d.treatment ∧
      d.diagnosis_name ≠ []) →
    (bodyPieces kept).map parseDiagEntry = kept := by
  intro kept
  induction kept with
  | nil => intro _; rfl
  | cons d ds ih =>
    intro hOK
    obtain ⟨hn, ht, hne⟩ := hOK d (List.mem_cons_self d ds)
    cases ds with
    | nil =>
      show [parseDiagEntry (bodyOf d)] = [d]
      rw [show bodyOf d = bodyOf d ++ [] from (List.append_nil _).symm,
        parseDiagEntry_body hn ht hne [] (Or.inl rfl)]
    | cons d2 ds2 =>
      show parseDiagEntry (bodyOf d ++ nl2) ::
        (bodyPieces (d2 :: ds2)).map parseDiagEntry = d :: d2 :: ds2
      rw [parseDiagEntry_body hn ht hne nl2 (Or.inr rfl),
        ih (fun q hq => hOK q (List.mem_cons_of_mem d hq))]

theorem enumFrom_map_render : ∀ (ds : List Diagnosis) (k : Nat),
    (List.enumFrom k ds).map (fun p => diagEntryText (p.1 + 1) p.2) =
      renderFrom (k + 1) ds := by
  intro ds
  induction ds with
  | nil => intro k; rfl
  | cons d ds' ih =>
    intro k
    show diagEntryText (k + 1) d :: _ = diagEntryText (k + 1) d :: _
    rw [ih (k + 1)]

theorem parseDiagnosis_render {l : List Diagnosis} (hOK : diagOK l) :
    parseDiagnosis (diagnosisText l) =
      l.filter (fun d => d.diagnosis_name ≠ []) := by
  have hOK' : ∀ d ∈ l.filter (fun d => d.diagnosis_name ≠ []),
      diagValOK d.diagnosis_name ∧ diagValOK d.treatment ∧ d.diagnosis_name ≠ [] := by
    intro d hd
    obtain ⟨hmem, hname⟩ := List.mem_filter.mp hd
    obtain ⟨h1, h2⟩ := hOK d hmem
    exact ⟨h1, h2, by simpa using hname⟩
  have hdiag : diagnosisText l =
      joinSep nl2 (renderFrom 1 (l.filter (fun d => d.diagnosis_name ≠ []))) := by
    unfold diagnosisText
    rw [show (l.filter (fun d => d.diagnosis_name ≠ [])).enum =
        List.enumFrom 0 (l.filter (fun d => d.diagnosis_name ≠ [])) from rfl,
      enumFrom_map_render]
  by_cases hk : l.filter (fun d => d.diagnosis_name ≠ []) = []
  · rw [hdiag, hk]
    rfl
  · rw [hdiag]
    unfold parseDiagnosis
    rw [splitNum_diagText _ hk hOK']
    rw [show (([] : Str) ::
        bodyPieces (l.filter (fun d => d.diagnosis_name ≠ []))).filter
          (fun e => e ≠ []) =
        (bodyPieces (l.filter (fun d => d.diagnosis_name ≠ []))).filter
          (fun e => e ≠ []) from by
      rw [List.filter_cons]
      rfl]
    rw [filter_ne_nil_all (bodyPieces_ne_nil _ (fun d hd => (hOK' d hd).2.2)),
      map_parse_bodyPieces _ hOK']

theorem strOrNull_getD (v : Str) : (strOrNull v).getD [] = v := by
  unfold strOrNull
  by_cases h : v = []
  · rw [if_pos h, h]
    rfl
  · rw [if_neg h]
    rfl

theorem vitalChunks_norm_cons {l x : Str} {ps qs : List (Str × Str)}
    (h : vitalChunks ps = vitalChunks qs) :
    vitalChunks ((l, if x = [] ∨ x = dashS then dashS else x) :: ps) =
      vitalChunks ((l, x) :: qs) := by
  by_cases hx : x = [] ∨ x = dashS
  · rw [if_pos hx, vitalChunks_cons_neg (Or.inr rfl), vitalChunks_cons_neg hx, h]
  · rw [if_neg hx, vitalChunks_cons_pos hx, vitalChunks_cons_pos hx, h]

theorem vitalsText_norm (v : Vitals) :
    vitalsText
      { height := if v.height = [] ∨ v.height = dashS then dashS else v.height
        weight := if v.weight = [] ∨ v.weight = dashS then dashS else v.weight
        bmi := if v.bmi = [] ∨ v.bmi = dashS then dashS else v.bmi
        bp := if v.bp = [] ∨ v.bp = dashS then dashS else v.bp } = vitalsText v := by
  unfold vitalsText
  congr 1
  exact vitalChunks_norm_cons (vitalChunks_norm_cons (vitalChunks_norm_cons
    (vitalChunks_norm_cons rfl)))

theorem diagnosisText_norm (l : List Diagnosis) :
    diagnosisText (if (l.filter (fun d => d.diagnosis_name ≠ [])).length > 0
      then l.filter (fun d => d.diagnosis_name ≠ [])
      else [{ diagnosis_name := [], treatment := [] }]) = diagnosisText l := by
  by_cases h : (l.filter (fun d => d.diagnosis_name ≠ [])).length > 0
  · rw [if_pos h]
    unfold diagnosisText
    rw [List.filter_eq_self.mpr (fun a ha => (List.mem_filter.mp ha).2)]
  · rw [if_neg h]
    have hk : l.filter (fun d => d.diagnosis_name ≠ []) = [] :=
      List.length_eq_zero.mp (by omega)
    unfold diagnosisText
    rw [hk]
    rfl

theorem roundtrip_all (n : StructuredNote) (raw : Str) (hOK : noteOK n) :
    parseChartInfoToStructuredNote (flattenChart n raw) =
      { chief_complaint := n.chief_complaint
        history_of_present_illness := n.history_of_present_illness
        history := n.history
        review_of_systems := n.review_of_systems
        physical_exam := n.physical_exam
        vitals :=
          { height := if n.vitals.height = [] ∨ n.vitals.height = dashS then dashS
              else n.vitals.height
            weight := if n.vitals.weight = [] ∨ n.vitals.weight = dashS then dashS
              else n.vitals.weight
            bmi := if n.vitals.bmi = [] ∨ n.vitals.bmi = dashS then dashS
              else n.vitals.bmi
            bp := if n.vitals.bp = [] ∨ n.vitals.bp = dashS then dashS
              else n.vitals.bp }
        diagnosis :=
          if (n.diagnosis.filter (fun d => d.diagnosis_name ≠ [])).length > 0
          then n.diagnosis.filter (fun d => d.diagnosis_name ≠ [])
          else [{ diagnosis_name := [], treatment := [] }]
        plan := n.plan
        extra_info := [] } := by
  obtain ⟨hH, hV, hD⟩ := hOK
  have hhist := parsedHistory_all n.history hH
  have hvit := parsedVitals_all n.vitals hV
  have hdiag := parseDiagnosis_render hD
  simp only [parseChartInfoToStructuredNote, flattenChart, strOrNull_getD]
  rw [hhist.1, hhist.2.1, hhist.2.2.1, hhist.2.2.2,
    hvit.1, hvit.2.1, hvit.2.2.1, hvit.2.2.2, hdiag]

/-- Claim C4 (amended): for a StructuredNote all of whose history, vitals
and diagnosis values are trimmed and free of the label strings, commas
(vitals), the Treatment label and the numbered-list delimiter (and do not
end in a digits-then-dot fragment), un-flattening the flattened persisted
form reproduces the scalar fields and the history exactly; the vitals
sub-fields come back with empty or dash values normalised to the dash
placeholder, the diagnosis list comes back with empty-named entries
dropped (or the single placeholder entry when none remain), and
extra_info always comes back empty — it is not persisted. -/
theorem claim4_roundtrip_content (n : StructuredNote) (raw : Str) (hOK : noteOK n) :
    (parseChartInfoToStructuredNote (flattenChart n raw)).chief_complaint =
      n.chief_complaint ∧
    (parseChartInfoToStructuredNote (flattenChart n raw)).history_of_present_illness =
      n.history_of_present_illness ∧
    (parseChartInfoToStructuredNote (flattenChart n raw)).history = n.history ∧
    (parseChartInfoToStructuredNote (flattenChart n raw)).review_of_systems =
      n.review_of_systems ∧
    (parseChartInfoToStructuredNote (flattenChart n raw)).physical_exam =
      n.physical_exam ∧
    (parseChartInfoToStructuredNote (flattenChart n raw)).vitals.height =
      (if n.vitals.height = [] ∨ n.vitals.height = dashS then dashS
        else n.vitals.height) ∧
    (parseChartInfoToStructuredNote (flattenChart n raw)).vitals.weight =
      (if n.vitals.weight = [] ∨ n.vitals.weight = dashS then dashS
        else n.vitals.weight) ∧
    (parseChartInfoToStructuredNote (flattenChart n raw)).vitals.bmi =
      (if n.vitals.bmi = [] ∨ n.vitals.bmi = dashS then dashS
        else n.vitals.bmi) ∧
    (parseChartInfoToStructuredNote (flattenChart n raw)).vitals.bp =
      (if n.vitals.bp = [] ∨ n.vitals.bp = dashS then dashS
        else n.vitals.bp) ∧
    (parseChartInfoToStructuredNote (flattenChart n raw)).diagnosis =
      (if (n.diagnosis.filter (fun d => d.diagnosis_name ≠ [])).length > 0
        then n.diagnosis.filter (fun d => d.diagnosis_name ≠ [])
        else [{ diagnosis_name := [], treatment := [] }]) ∧
    (parseChartInfoToStructuredNote (flattenChart n raw)).plan = n.plan ∧
    (parseChartInfoToStructuredNote (flattenChart n raw)).extra_info = [] := by
  rw [roundtrip_all n raw hOK]
  exact ⟨rfl, rfl, rfl, rfl, rfl, rfl, rfl, rfl, rfl, rfl, rfl, rfl⟩

theorem claim4_witness :
    noteOK roundNote ∧
    (parseChartInfoToStructuredNote
        (flattenChart roundNote (("raw").data))).history = roundNote.history ∧
    (parseChartInfoToStructuredNote
        (flattenChart roundNote (("raw").data))).extra_info = [] :=
  ⟨by decide,
    (claim4_roundtrip_content roundNote (("raw").data) (by decide)).2.2.1,
    (claim4_roundtrip_content roundNote (("raw").data)
      (by decide)).2.2.2.2.2.2.2.2.2.2.2⟩

/-- Claim C3 (amended): for a StructuredNote all of whose history, vitals
and diagnosis values are trimmed and free of the label strings, commas
(vitals), the Treatment label and the numbered-list delimiter (and do not
end in a digits-then-dot fragment), the flatten–unflatten–flatten round
trip is byte-stable on all three stored text blobs: the history, vitals
and diagnosis columns of the second flattening are identical to those of
the first. -/
theorem claim3_roundtrip_stable (n : StructuredNote) (raw raw2 : Str)
    (hOK : noteOK n) :
    (flattenChart (parseChartInfoToStructuredNote (flattenChart n raw)) raw2).history =
      (flattenChart n raw).history ∧
    (flattenChart (parseChartInfoToStructuredNote (flattenChart n raw)) raw2).vitalSigns =
      (flattenChart n raw).vitalSigns ∧
    (flattenChart (parseChartInfoToStructuredNote (flattenChart n raw)) raw2).diagnosis =
      (flattenChart n raw).diagnosis := by
  rw [roundtrip_all n raw hOK]
  exact ⟨rfl, congrArg strOrNull (vitalsText_norm n.vitals),
    congrArg strOrNull (diagnosisText_norm n.diagnosis)⟩

theorem claim3_witness :
    noteOK roundNote ∧
    (flattenChart (parseChartInfoToStructuredNote
        (flattenChart roundNote (("raw").data))) (("raw2").data)).history =
      (flattenChart roundNote (("raw").data)).history :=
  ⟨by decide,
    (claim3_roundtrip_stable roundNote (("raw").data) (("raw2").data) (by decide)).1⟩
